import Mathlib

/-!
Verification of the small C-like compiler pipeline (lexer, semantic analyzer,
IR generator, optimizer) by shallow embedding of the TypeScript sources.

Conventions used throughout the embedding:
* JavaScript objects with optional fields become structures with `Option` fields;
  a field set to a value (possibly the empty string) is `some`, an absent field is `none`.
* JavaScript string-truthiness (`x || d`, `if (x)`) is modelled explicitly:
  both `none` and `some ""` are falsy.
* `Record<string, T>` objects used as maps become association lists
  `List (String × T)` with first-match lookup and in-place replacement on update,
  which matches JavaScript property update semantics.
* JavaScript numbers are modelled as exact rationals `ℚ`.  Every concrete value
  exercised by a theorem in this file is a small integer, where IEEE double
  arithmetic is exact, so the model agrees with the source there.
* `Math.random().toString(36).substr(2, 9)` (the block-scope id source) is
  modelled as an explicit stream `Nat → String` consumed one element per call.
-/

set_option maxHeartbeats 1000000

namespace CompilerProj

/-- Token shape from types.ts: { type, value, line, column }. -/
structure Token where
  type : String
  value : String
  line : Nat
  column : Nat
deriving DecidableEq

/-- CompilerError shape from types.ts: { message, line, column }. -/
structure CompilerError where
  message : String
  line : Nat
  column : Nat
deriving DecidableEq

/-- Reserved words of the language (lexer KEYWORDS array). -/
def KEYWORDS : List String :=
  ["int", "float", "bool", "void", "if", "else", "while", "for", "return",
   "true", "false", "print", "read", "switch", "case", "default", "break"]

/-- Operator lexemes in source order (lexer OPERATORS array).  The order matters:
PATTERNS.OPERATOR is a regex alternation built in exactly this order, and
JavaScript alternation takes the first alternative that matches, not the longest. -/
def OPERATORS : List String :=
  ["+", "-", "*", "/", "%", "=", "==", "!=", "<", ">", "<=", ">=", "&&", "||", "!"]

/-- Punctuation lexemes in source order (lexer PUNCTUATION array). -/
def PUNCTUATION : List String :=
  ["(", ")", "\x7b", "\x7d", "[", "]", ";", ",", "."]

/-- ASCII fragment of the JS regex class \s; the non-ASCII whitespace code points
are never relevant to the theorems below. -/
def isJsSpace (c : Char) : Bool :=
  c = ' ' || c = '\t' || c = '\n' || c = '\r' || c = '\x0b' || c = '\x0c'

def isDigitC (c : Char) : Bool := '0' ≤ c && c ≤ '9'

def isIdentStart (c : Char) : Bool :=
  ('a' ≤ c && c ≤ 'z') || ('A' ≤ c && c ≤ 'Z') || c = '_'

def isIdentChar (c : Char) : Bool := isIdentStart c || isDigitC c

/-- ASCII line terminators: the characters JS regex `.` does not match. -/
def isLineTerm (c : Char) : Bool := c = '\n' || c = '\r'

/-- PATTERNS.WHITESPACE = /^\s+/ (greedy). -/
def matchWhitespace (cs : List Char) : Option (List Char) :=
  let w := cs.takeWhile isJsSpace
  if w.isEmpty then none else some w

/-- PATTERNS.COMMENT_SINGLE = /^\/\/.*$/ with no m flag: `$` matches only at the end
of the whole input and `.` excludes line terminators, so the regex matches exactly
when the `//` comment runs to the very end of the input. -/
def matchCommentSingle (cs : List Char) : Option (List Char) :=
  match cs with
  | '/' :: '/' :: rest =>
    if rest.all (fun c => !isLineTerm c) then some ('/' :: '/' :: rest) else none
  | _ => none

/-- Scan through the first occurrence of a closing star slash (the lazy
[\s\S]*?\*\/ tail of PATTERNS.COMMENT_MULTI); returns the consumed chars. -/
def closeMulti : List Char → Option (List Char)
  | '*' :: '/' :: _ => some ['*', '/']
  | c :: rest => (closeMulti rest).map (fun m => c :: m)
  | [] => none

/-- PATTERNS.COMMENT_MULTI = /^\/\*[\s\S]*?\*\// -/
def matchCommentMulti (cs : List Char) : Option (List Char) :=
  match cs with
  | '/' :: '*' :: rest => (closeMulti rest).map (fun m => '/' :: '*' :: m)
  | _ => none

/-- PATTERNS.IDENTIFIER = /^[a-zA-Z_][a-zA-Z0-9_]*/ -/
def matchIdentifier (cs : List Char) : Option (List Char) :=
  match cs with
  | c :: rest => if isIdentStart c then some (c :: rest.takeWhile isIdentChar) else none
  | [] => none

/-- PATTERNS.NUMBER = /^[0-9]+(\.[0-9]+)?/ -/
def matchNumber (cs : List Char) : Option (List Char) :=
  let ds := cs.takeWhile isDigitC
  if ds.isEmpty then none
  else
    match cs.drop ds.length with
    | '.' :: rest2 =>
      let fs := rest2.takeWhile isDigitC
      if fs.isEmpty then some ds else some (ds ++ '.' :: fs)
    | _ => some ds

/-- Body scanner for PATTERNS.STRING = /^"([^"\\]|\\.)*"/ after the opening quote:
`[^"\\]` matches any character (including line terminators) except quote and
backslash, `\\.` requires a non-line-terminator after the backslash.  Returns the
consumed characters, including the closing quote. -/
def closeString : List Char → Option (List Char)
  | '"' :: _ => some ['"']
  | '\\' :: c :: rest =>
    if isLineTerm c then none
    else (closeString rest).map (fun m => '\\' :: c :: m)
  | '\\' :: [] => none
  | c :: rest => (closeString rest).map (fun m => c :: m)
  | [] => none

/-- PATTERNS.STRING = /^"([^"\\]|\\.)*"/ -/
def matchString (cs : List Char) : Option (List Char) :=
  match cs with
  | '"' :: rest => (closeString rest).map (fun m => '"' :: m)
  | _ => none

/-- First pattern in the list that is a prefix of the input: the JS regex
alternation semantics used by PATTERNS.OPERATOR and PATTERNS.PUNCTUATION. -/
def firstPrefixMatch (pats : List String) (cs : List Char) : Option (List Char) :=
  match pats with
  | [] => none
  | p :: rest => if p.data.isPrefixOf cs then some p.data else firstPrefixMatch rest cs

def matchOperator (cs : List Char) : Option (List Char) := firstPrefixMatch OPERATORS cs

def matchPunct (cs : List Char) : Option (List Char) := firstPrefixMatch PUNCTUATION cs

/-- Whitespace branch of the scan loop: advance line/column per character. -/
def advanceWs (lc : Nat × Nat) (w : List Char) : Nat × Nat :=
  w.foldl (fun p c => if c = '\n' then (p.1 + 1, 1) else (p.1, p.2 + 1)) lc

/-- comment.split("\n").length - 1 -/
def countNl (w : List Char) : Nat := (w.filter (fun c => c = '\n')).length

/-- The characters after the last newline (the last element of comment.split("\n")). -/
def afterLastNl (w : List Char) : List Char :=
  w.foldl (fun acc c => if c = '\n' then [] else acc ++ [c]) []

/-- Result of one iteration of the tokenize scan loop. -/
structure ScanOut where
  tok : Option Token
  err : Option CompilerError
  consumed : Nat
  line : Nat
  col : Nat
deriving DecidableEq

/-- One iteration of the scan loop of tokenize, applying the branches in source
order: whitespace, single-line comment, multi-line comment, identifier/keyword,
number, string, operator, punctuation, unexpected character. -/
def scanOne (cs : List Char) (line col : Nat) : ScanOut :=
  match matchWhitespace cs with
  | some w =>
    let lc := advanceWs (line, col) w
    ⟨none, none, w.length, lc.1, lc.2⟩
  | none =>
    match matchCommentSingle cs with
    | some m => ⟨none, none, m.length, line + 1, 1⟩
    | none =>
      match matchCommentMulti cs with
      | some m =>
        let nl := countNl m
        let col2 := if nl > 0 then (afterLastNl m).length + 1 else col + m.length
        ⟨none, none, m.length, line + nl, col2⟩
      | none =>
        match matchIdentifier cs with
        | some v =>
          let value := String.mk v
          let ty := if KEYWORDS.contains value then "KEYWORD" else "IDENTIFIER"
          ⟨some ⟨ty, value, line, col⟩, none, v.length, line, col + v.length⟩
        | none =>
          match matchNumber cs with
          | some v =>
            ⟨some ⟨"NUMBER", String.mk v, line, col⟩, none, v.length, line, col + v.length⟩
          | none =>
            match matchString cs with
            | some v =>
              ⟨some ⟨"STRING", String.mk v, line, col⟩, none, v.length, line, col + v.length⟩
            | none =>
              match matchOperator cs with
              | some v =>
                ⟨some ⟨"OPERATOR", String.mk v, line, col⟩, none, v.length, line, col + v.length⟩
              | none =>
                match matchPunct cs with
                | some v =>
                  ⟨some ⟨"PUNCTUATION", String.mk v, line, col⟩, none, v.length,
                    line, col + v.length⟩
                | none =>
                  ⟨none, some ⟨"Unexpected character: " ++ String.mk (cs.take 1), line, col⟩,
                    1, line, col + 1⟩

/-- The scan loop, fuel-indexed so that it is structurally recursive; the fuel
sufficiency theorem below shows that fuel = length of the input always completes
the scan (the termination claim for tokenize). -/
def tokenizeAux : Nat → List Char → Nat → Nat → List Token × List CompilerError
  | 0, _, _, _ => ([], [])
  | _ + 1, [], _, _ => ([], [])
  | f + 1, c :: rest, line, col =>
    let r := scanOne (c :: rest) line col
    let p := tokenizeAux f ((c :: rest).drop r.consumed) r.line r.col
    (r.tok.toList ++ p.1, r.err.toList ++ p.2)

/-- tokenize from the lexer source: scan from position 0, line 1, column 1. -/
def tokenize (input : String) : List Token × List CompilerError :=
  tokenizeAux input.data.length input.data 1 1

/-! ## IR data model and optimizer (types.ts, optimizer.ts) -/

/-- IR instruction from types.ts: { op, result?, arg1?, arg2? }.  A JS property that
is set (possibly to the empty string) is `some`; an absent property is `none`. -/
structure IRInstruction where
  op : String
  result : Option String := none
  arg1 : Option String := none
  arg2 : Option String := none
deriving DecidableEq

/-- JS truthiness of a possibly-absent string: undefined and the empty string are falsy. -/
def jsTruthy (o : Option String) : Bool :=
  match o with
  | some s => s ≠ ""
  | none => false

/-- JS `x || d` on a possibly-absent string. -/
def jsOr (o : Option String) (d : String) : String :=
  match o with
  | some s => if s = "" then d else s
  | none => d

def digitsToNat (ds : List Char) : Nat :=
  ds.foldl (fun n c => n * 10 + (c.toNat - ('0').toNat)) 0

/-- The model of a JS number: an exact rational kept unnormalized (num over a
positive den) so that all of its arithmetic reduces inside the kernel.  IEEE
rounding is not modelled; every value a theorem below folds is a small integer,
where double arithmetic is exact. -/
structure JsNum where
  num : ℤ
  den : ℕ
deriving DecidableEq

def JsNum.add (a b : JsNum) : JsNum := ⟨a.num * b.den + b.num * a.den, a.den * b.den⟩

def JsNum.sub (a b : JsNum) : JsNum := ⟨a.num * b.den - b.num * a.den, a.den * b.den⟩

def JsNum.mul (a b : JsNum) : JsNum := ⟨a.num * b.num, a.den * b.den⟩

def JsNum.isZero (a : JsNum) : Bool := a.num = 0

def JsNum.div (a b : JsNum) : JsNum :=
  if b.num < 0 then ⟨-(a.num * b.den), a.den * b.num.natAbs⟩
  else ⟨a.num * b.den, a.den * b.num.natAbs⟩

def JsNum.eqb (a b : JsNum) : Bool := a.num * b.den = b.num * a.den

def JsNum.ltb (a b : JsNum) : Bool := decide (a.num * b.den < b.num * a.den)

def JsNum.leb (a b : JsNum) : Bool := decide (a.num * b.den ≤ b.num * a.den)

/-- Truncation toward zero (Int division in Lean truncates toward zero). -/
def JsNum.trunc (a : JsNum) : ℤ := a.num / (a.den : ℤ)

/-- JS % on numbers: remainder with the sign of the dividend (exact fmod). -/
def JsNum.mod (a b : JsNum) : JsNum := a.sub (b.mul ⟨(a.div b).trunc, 1⟩)

/-- Number.prototype.toString for the folded values arising in this development:
integral doubles print as plain decimals.  (A non-integral value is never produced
by any fold a theorem below evaluates; it gets a deterministic placeholder.) -/
def JsNum.toStr (a : JsNum) : String :=
  if a.num % (a.den : ℤ) = 0 then (a.num / (a.den : ℤ)).repr
  else a.num.repr ++ "/" ++ Nat.repr a.den

/-- JS parseFloat composed with the isFinite test of isNumeric: `none` both when
parseFloat yields NaN and when it yields ±Infinity, `some q` with the exact decimal
value otherwise. -/
def parseFloatJs (s : String) : Option JsNum :=
  let cs := s.data.dropWhile isJsSpace
  let sc : ℤ × List Char :=
    match cs with
    | '+' :: r => (1, r)
    | '-' :: r => (-1, r)
    | _ => (1, cs)
  if ("Infinity").data.isPrefixOf sc.2 then none
  else
    let d1 := sc.2.takeWhile isDigitC
    let cs2 := sc.2.drop d1.length
    let fc : List Char × List Char :=
      match cs2 with
      | '.' :: r => (r.takeWhile isDigitC, r.dropWhile isDigitC)
      | _ => ([], cs2)
    if d1.isEmpty && fc.1.isEmpty then none
    else
      let baseNum : ℤ := sc.1 * ((digitsToNat d1 : ℤ) * (10 : ℤ) ^ fc.1.length + (digitsToNat fc.1 : ℤ))
      let baseDen : ℕ := 10 ^ fc.1.length
      let expv : ℤ :=
        match fc.2 with
        | e :: r =>
          if e = 'e' || e = 'E' then
            match r with
            | '+' :: r2 =>
              if (r2.takeWhile isDigitC).isEmpty then 0 else (digitsToNat (r2.takeWhile isDigitC) : ℤ)
            | '-' :: r2 =>
              if (r2.takeWhile isDigitC).isEmpty then 0 else -(digitsToNat (r2.takeWhile isDigitC) : ℤ)
            | _ =>
              if (r.takeWhile isDigitC).isEmpty then 0 else (digitsToNat (r.takeWhile isDigitC) : ℤ)
          else 0
        | [] => 0
      if expv < 0 then some ⟨baseNum, baseDen * 10 ^ expv.natAbs⟩
      else some ⟨baseNum * (10 : ℤ) ^ expv.natAbs, baseDen⟩

/-- isNumeric(str) = !isNaN(parseFloat(str)) && isFinite(parseFloat(str)). -/
def isNumeric (s : String) : Bool := (parseFloatJs s).isSome

/-- s.startsWith(p), computed on the character lists so it reduces in the kernel. -/
def strStartsWith (s p : String) : Bool := p.data.isPrefixOf s.data

/-- s.substring(n) (ASCII inputs only in this development). -/
def strDrop (s : String) (n : Nat) : String := String.mk (s.data.drop n)

/-- s.includes(".") on a lexer number lexeme. -/
def strContainsDot (s : String) : Bool := s.data.contains '.'

/-- s.toLowerCase() for the ASCII node-kind names. -/
def strToLower (s : String) : String := String.mk (s.data.map Char.toLower)

def ARITH_OPS : List String := ["ADD", "SUB", "MUL", "DIV", "MOD"]

def CMP_OPS : List String := ["EQ", "NE", "LT", "GT", "LE", "GE"]

/-- The arithmetic switch of constantFolding; `none` encodes `continue`
(division or modulo by zero). -/
def foldArith (op : String) (a b : JsNum) : Option JsNum :=
  if op = "ADD" then some (a.add b)
  else if op = "SUB" then some (a.sub b)
  else if op = "MUL" then some (a.mul b)
  else if op = "DIV" then (if b.isZero then none else some (a.div b))
  else if op = "MOD" then (if b.isZero then none else some (a.mod b))
  else none

/-- The comparison switch of constantFolding. -/
def foldCmp (op : String) (a b : JsNum) : Option Bool :=
  if op = "EQ" then some (a.eqb b)
  else if op = "NE" then some (!(a.eqb b))
  else if op = "LT" then some (a.ltb b)
  else if op = "GT" then some (b.ltb a)
  else if op = "LE" then some (a.leb b)
  else if op = "GE" then some (b.leb a)
  else none

/-- Per-instruction body of the constantFolding loop.  (After the arithmetic block
replaces ir[i], the comparison block still tests the old `instr`, whose op is not a
comparison op, so the two blocks never interact on one instruction.) -/
def foldInstr (i : IRInstruction) : IRInstruction :=
  if ARITH_OPS.contains i.op then
    match parseFloatJs (i.arg1.getD ""), parseFloatJs (i.arg2.getD "") with
    | some a, some b =>
      match foldArith i.op a b with
      | some v => { op := "ASSIGN", result := i.result, arg1 := some (JsNum.toStr v) }
      | none => i
    | _, _ => i
  else if CMP_OPS.contains i.op then
    match parseFloatJs (i.arg1.getD ""), parseFloatJs (i.arg2.getD "") with
    | some a, some b =>
      match foldCmp i.op a b with
      | some v => { op := "ASSIGN", result := i.result, arg1 := some (if v then "true" else "false") }
      | none => i
    | _, _ => i
  else i

/-- constantFolding mutates ir[i] independently per index: a map. -/
def constantFolding (ir : List IRInstruction) : List IRInstruction := ir.map foldInstr

/-- First-match lookup in a JS object modelled as an association list. -/
def lookupA {α : Type} (l : List (String × α)) (k : String) : Option α :=
  (l.find? (fun p => p.1 = k)).map (fun p => p.2)

/-- JS property write: replace in place when the key exists, append otherwise. -/
def updateA {α : Type} (l : List (String × α)) (k : String) (v : α) : List (String × α) :=
  if (l.find? (fun p => p.1 = k)).isSome then
    l.map (fun p => if p.1 = k then (k, v) else p)
  else l ++ [(k, v)]

/-- JS `delete obj[k]`. -/
def removeA {α : Type} (l : List (String × α)) (k : String) : List (String × α) :=
  l.filter (fun p => p.1 ≠ k)

/-- Lookup whose result is then tested for JS truthiness (`constants[x]` as a condition). -/
def lookupTruthy (m : List (String × String)) (k : String) : Option String :=
  match lookupA m k with
  | some v => if v = "" then none else some v
  | none => none

/-- Body of the first constantPropagation loop: add/update an entry for an ASSIGN
with numeric RHS, propagate through an ASSIGN whose RHS is tracked, and otherwise
invalidate the entry of any written variable. -/
def cpStep (m : List (String × String)) (i : IRInstruction) : List (String × String) :=
  if i.op = "ASSIGN" && jsTruthy i.result && jsTruthy i.arg1 && isNumeric (i.arg1.getD "") then
    updateA m (i.result.getD "") (i.arg1.getD "")
  else
    match (if i.op = "ASSIGN" && jsTruthy i.result && jsTruthy i.arg1 then
             lookupTruthy m (i.arg1.getD "") else none) with
    | some v => updateA m (i.result.getD "") v
    | none => if jsTruthy i.result then removeA m (i.result.getD "") else m

/-- First constantPropagation loop over the whole list. -/
def cpPass1 (m : List (String × String)) : List IRInstruction → List (String × String)
  | [] => m
  | i :: rest => cpPass1 (cpStep m i) rest

/-- `if (instr.argK && constants[instr.argK]) instr.argK = constants[instr.argK]`. -/
def substOne (m : List (String × String)) (o : Option String) : Option String :=
  match o with
  | some a =>
    if a = "" then some a
    else
      match lookupTruthy m a with
      | some v => some v
      | none => some a
  | none => none

/-- Body of the second constantPropagation loop. -/
def cpSubst (m : List (String × String)) (i : IRInstruction) : IRInstruction :=
  { i with arg1 := substOne m i.arg1, arg2 := substOne m i.arg2 }

/-- Second constantPropagation loop over the whole list (the map is the one the
first loop finished with). -/
def cpPass2 (m : List (String × String)) : List IRInstruction → List IRInstruction
  | [] => []
  | i :: rest => cpSubst m i :: cpPass2 m rest

/-- constantPropagation from optimizer.ts: two sequential loops over the list. -/
def constantPropagation (ir : List IRInstruction) : List IRInstruction :=
  cpPass2 (cpPass1 [] ir) ir

/-- Mark-used test of deadCodeElimination for one operand. -/
def usedArg (used : List String) (o : Option String) : List String :=
  match o with
  | some a => if a ≠ "" && !(isNumeric a) && !(strStartsWith a ("L")) then a :: used else used
  | none => used

/-- First deadCodeElimination loop: the names used as non-numeric non-label operands. -/
def collectUsed : List String → List IRInstruction → List String
  | used, [] => used
  | used, i :: rest => collectUsed (usedArg (usedArg used i.arg1) i.arg2) rest

/-- Second deadCodeElimination loop: replace dead ASSIGNs with NOP. -/
def dceMark (used : List String) (i : IRInstruction) : IRInstruction :=
  if i.op = "ASSIGN" && jsTruthy i.result && !(used.contains (i.result.getD "")) then
    { op := "NOP" }
  else i

/-- deadCodeElimination from optimizer.ts (the final loop removes every NOP). -/
def deadCodeElimination (ir : List IRInstruction) : List IRInstruction :=
  let used := collectUsed [] ir
  (ir.map (dceMark used)).filter (fun i => i.op ≠ "NOP")

/-- optimizeIR: deep copy (purity), then folding, propagation, dead-code elimination. -/
def optimizeIR (ir : List IRInstruction) : List IRInstruction :=
  deadCodeElimination (constantPropagation (constantFolding ir))

/-! ## AST data model (types.ts) -/

/-!
AST node from types.ts: { type, value?, line?, column?, children? }.  The child
list is a mutually inductive list so that every traversal below is structurally
recursive (and hence computes by kernel reduction).  A JS node without a `children`
property behaves exactly like one with an empty array in the code modelled here.
-/

mutual
inductive ASTNode where
  | mk (type : String) (value : Option String) (line : Option Nat) (column : Option Nat)
       (children : ASTList)
inductive ASTList where
  | nil
  | cons (head : ASTNode) (tail : ASTList)
end

def ASTNode.type : ASTNode → String
  | .mk t _ _ _ _ => t

def ASTNode.value : ASTNode → Option String
  | .mk _ v _ _ _ => v

def ASTNode.line : ASTNode → Option Nat
  | .mk _ _ l _ _ => l

def ASTNode.column : ASTNode → Option Nat
  | .mk _ _ _ c _ => c

def ASTNode.children : ASTNode → ASTList
  | .mk _ _ _ _ ch => ch

def ASTList.get? : ASTList → Nat → Option ASTNode
  | .nil, _ => none
  | .cons h _, 0 => some h
  | .cons _ tl, n + 1 => tl.get? n

def ASTList.length : ASTList → Nat
  | .nil => 0
  | .cons _ tl => tl.length + 1

/-- Build an ASTList from a Lean list (used to write down concrete test ASTs). -/
def astL : List ASTNode → ASTList
  | [] => .nil
  | n :: r => .cons n (astL r)

/-- node.children![i].value, with JS `|| ""`-style defaulting handled by callers. -/
def childValue (ch : ASTList) (i : Nat) : Option String :=
  (ch.get? i).bind ASTNode.value

/-- The tail of a child list (children.slice(1) for argument lists). -/
def ASTList.rest : ASTList → ASTList
  | .nil => .nil
  | .cons _ tl => tl


/-! ## IR generator (ir-generator.ts)

The source pushes instructions onto one shared array and mutates two counters;
the embedding returns the instructions appended by each visit together with the
counter values, composed by list append — the same append-only discipline.
Where the source would crash on a missing child (`node.children![i]` on a too-short
array), the embedding skips that visit but keeps the surrounding emission; every
theorem below evaluates the generator only on ASTs that have all accessed children,
where the two behaviours agree. -/

/-- Result of visitNode: appended instructions, temp counter, label counter,
returned operand (null becomes none). -/
structure GenOut where
  ins : List IRInstruction
  tc : Nat
  lc : Nat
  res : Option String
deriving DecidableEq

structure GenListOut where
  ins : List IRInstruction
  tc : Nat
  lc : Nat
deriving DecidableEq

structure GenArgsOut where
  ins : List IRInstruction
  tc : Nat
  lc : Nat
  args : List String
deriving DecidableEq

/-- The IR opcode of the twelve structurally identical binary-operator cases of
visitNode (Equal … Modulo); none for every other node type. -/
def binOpIR (ty : String) : Option String :=
  if ty = "Equal" then some "EQ"
  else if ty = "NotEqual" then some "NE"
  else if ty = "LessThan" then some "LT"
  else if ty = "GreaterThan" then some "GT"
  else if ty = "LessThanEqual" then some "LE"
  else if ty = "GreaterThanEqual" then some "GE"
  else if ty = "Addition" then some "ADD"
  else if ty = "Subtraction" then some "SUB"
  else if ty = "Multiplication" then some "MUL"
  else if ty = "Division" then some "DIV"
  else if ty = "Modulo" then some "MOD"
  else none

/-- The switch labels of visitNode in ir-generator.ts, as a dispatch kind (the
model of `switch (node.type)`) so that the recursive visitor's equations stay
small enough to reason with. -/
inductive GKind where
  | program
  | functionDecl
  | varDecl
  | block
  | ifStmt
  | whileStmt
  | forStmt
  | returnStmt
  | printStmt
  | assign
  | logicalOr
  | logicalAnd
  | binOp
  | unaryOp
  | call
  | numberLit
  | stringLit
  | boolLit
  | ident
  | grouping
  | other
deriving DecidableEq

/-- Classify a node type string into its visitNode switch case. -/
def gKind (ty : String) : GKind :=
  if ty = "Program" then .program
  else if ty = "FunctionDeclaration" then .functionDecl
  else if ty = "VariableDeclaration" then .varDecl
  else if ty = "Block" then .block
  else if ty = "IfStatement" then .ifStmt
  else if ty = "WhileStatement" then .whileStmt
  else if ty = "ForStatement" then .forStmt
  else if ty = "ReturnStatement" then .returnStmt
  else if ty = "PrintStatement" then .printStmt
  else if ty = "Assignment" then .assign
  else if ty = "LogicalOr" then .logicalOr
  else if ty = "LogicalAnd" then .logicalAnd
  else if (binOpIR ty).isSome then .binOp
  else if ty = "LogicalNot" || ty = "Negation" then .unaryOp
  else if ty = "FunctionCall" then .call
  else if ty = "NumberLiteral" then .numberLit
  else if ty = "StringLiteral" then .stringLit
  else if ty = "BooleanLiteral" then .boolLit
  else if ty = "Identifier" then .ident
  else if ty = "Grouping" then .grouping
  else .other

/-- FunctionDeclaration emission: label, prologue, body, epilogue. -/
def genFunctionShape (funcName : String) (body : GenOut) : GenOut :=
  ⟨⟨"LABEL", some funcName, none, none⟩ :: ⟨"ENTER", none, none, none⟩ :: body.ins ++
    [⟨"LEAVE", none, none, none⟩, ⟨"RET", none, none, none⟩], body.tc, body.lc, none⟩

/-- IfStatement emission; the two labels are allocated right after the condition
visit, hence from rc.lc. -/
def genIfShape (rc rThen rElse : GenOut) : GenOut :=
  let elseLabel := "L" ++ Nat.repr rc.lc
  let endLabel := "L" ++ Nat.repr (rc.lc + 1)
  ⟨rc.ins ++ [⟨"JUMPFALSE", some elseLabel, some (jsOr rc.res ""), none⟩] ++ rThen.ins ++
    [⟨"JUMP", some endLabel, none, none⟩, ⟨"LABEL", some elseLabel, none, none⟩] ++ rElse.ins ++
    [⟨"LABEL", some endLabel, none, none⟩], rElse.tc, rElse.lc, none⟩

/-- WhileStatement emission; both labels allocated before the condition visit. -/
def genWhileShape (l : Nat) (rc rb : GenOut) : GenOut :=
  let startLabel := "L" ++ Nat.repr l
  let wEndLabel := "L" ++ Nat.repr (l + 1)
  ⟨⟨"LABEL", some startLabel, none, none⟩ :: rc.ins ++
    [⟨"JUMPFALSE", some wEndLabel, some (jsOr rc.res ""), none⟩] ++ rb.ins ++
    [⟨"JUMP", some startLabel, none, none⟩, ⟨"LABEL", some wEndLabel, none, none⟩],
    rb.tc, rb.lc, none⟩

/-- ForStatement emission; labels allocated after the init visit (from ri.lc);
the JUMPFALSE is emitted only when the condition clause is present. -/
def genForShape (ri : GenOut) (hasCond : Bool) (rcond rb rs : GenOut) : GenOut :=
  let forStart := "L" ++ Nat.repr ri.lc
  let forEnd := "L" ++ Nat.repr (ri.lc + 1)
  let condIns :=
    if hasCond then
      rcond.ins ++ [⟨"JUMPFALSE", some forEnd, some (jsOr rcond.res ""), none⟩]
    else []
  ⟨ri.ins ++ ⟨"LABEL", some forStart, none, none⟩ :: condIns ++ rb.ins ++ rs.ins ++
    [⟨"JUMP", some forStart, none, none⟩, ⟨"LABEL", some forEnd, none, none⟩],
    rs.tc, rs.lc, none⟩

/-- LogicalOr / LogicalAnd emission (jumpOp JUMPTRUE resp. JUMPFALSE). -/
def genShortCircuit (temp endLabel jumpOp : String) (rl rr : GenOut) : GenOut :=
  ⟨rl.ins ++ [⟨"ASSIGN", some temp, some (jsOr rl.res ""), none⟩,
    ⟨jumpOp, some endLabel, some temp, none⟩] ++ rr.ins ++
    [⟨"ASSIGN", some temp, some (jsOr rr.res ""), none⟩,
    ⟨"LABEL", some endLabel, none, none⟩], rr.tc, rr.lc, some temp⟩

/-- Binary-operator emission: one instruction into a fresh temporary. -/
def genBinShape (irop : String) (rl rr : GenOut) : GenOut :=
  let temp := "t" ++ Nat.repr rr.tc
  ⟨rl.ins ++ rr.ins ++ [⟨irop, some temp, some (jsOr rl.res ""), some (jsOr rr.res "")⟩],
    rr.tc + 1, rr.lc, some temp⟩

/-- LogicalNot / Negation emission. -/
def genUnaryShape (irop : String) (r : GenOut) : GenOut :=
  let temp := "t" ++ Nat.repr r.tc
  ⟨r.ins ++ [⟨irop, some temp, some (jsOr r.res ""), none⟩], r.tc + 1, r.lc, some temp⟩

/-- FunctionCall emission: PARAM per truthy argument, then the CALL. -/
def genCallShape (funcCallName : String) (ra : GenArgsOut) : GenOut :=
  let callTemp := "t" ++ Nat.repr ra.tc
  ⟨ra.ins ++ ra.args.map (fun a => ⟨"PARAM", none, some a, none⟩) ++
    [⟨"CALL", some callTemp, some funcCallName, some (Nat.repr ra.args.length)⟩],
    ra.tc + 1, ra.lc, some callTemp⟩

mutual

/-- Node count (plus spine) of an AST: the canonical fuel for the visitors below. -/
def astSizeN : ASTNode → Nat
  | .mk _ _ _ _ ch => astSizeL ch + 1

def astSizeL : ASTList → Nat
  | .nil => 0
  | .cons n rest => astSizeN n + astSizeL rest + 1

end

/-- `node.children![i]` followed by a visit: run the continuation on the child
when it exists, otherwise the supplied default (where JS would crash). -/
def onChild {α : Type} (c : Option ASTNode) (dflt : α) (k : ASTNode → α) : α :=
  match c with
  | some n => k n
  | none => dflt

mutual

/-- visitNode of ir-generator.ts.  The structural recursion is on an explicit
fuel (first argument); `generateIR` supplies `astSizeN ast`, and the
fuel-stability theorem below shows that any fuel of at least the subtree size
gives the same result, so the fuel never runs out on the actual calls.
Children are accessed by index, as the source does with node.children![i]. -/
def genVisit : Nat → ASTNode → Nat → Nat → GenOut
  | 0, _, t, l => ⟨[], t, l, none⟩
  | f + 1, .mk ty v _ _ ch, t, l =>
    match gKind ty with
    | .program =>
      let r := genList f ch t l
      ⟨r.ins, r.tc, r.lc, none⟩
    | .functionDecl =>
      let body : GenOut := onChild (ch.get? 3) ⟨[], t, l, none⟩ (fun b => genVisit f b t l)
      genFunctionShape (jsOr (childValue ch 1) "") body
    | .varDecl =>
      onChild (ch.get? 2) ⟨[], t, l, none⟩ (fun e =>
        let r := genVisit f e t l
        if jsTruthy r.res then
          ⟨r.ins ++ [⟨"ASSIGN", some (jsOr (childValue ch 1) ""), some (r.res.getD ""), none⟩],
            r.tc, r.lc, none⟩
        else ⟨r.ins, r.tc, r.lc, none⟩)
    | .block =>
      let r := genList f ch t l
      ⟨r.ins, r.tc, r.lc, none⟩
    | .ifStmt =>
      let rc : GenOut := onChild (ch.get? 0) ⟨[], t, l, none⟩ (fun c0 => genVisit f c0 t l)
      let rThen : GenOut := onChild (ch.get? 1) ⟨[], rc.tc, rc.lc + 2, none⟩
        (fun c1 => genVisit f c1 rc.tc (rc.lc + 2))
      let rElse : GenOut := onChild (ch.get? 2) ⟨[], rThen.tc, rThen.lc, none⟩
        (fun c2 => genVisit f c2 rThen.tc rThen.lc)
      genIfShape rc rThen rElse
    | .whileStmt =>
      let rc : GenOut := onChild (ch.get? 0) ⟨[], t, l + 2, none⟩
        (fun c0 => genVisit f c0 t (l + 2))
      let rb : GenOut := onChild (ch.get? 1) ⟨[], rc.tc, rc.lc, none⟩
        (fun c1 => genVisit f c1 rc.tc rc.lc)
      genWhileShape l rc rb
    | .forStmt =>
      let ri : GenOut := onChild (ch.get? 0) ⟨[], t, l, none⟩
        (fun c0 => if c0.type = "Empty" then ⟨[], t, l, none⟩ else genVisit f c0 t l)
      let hasCond : Bool := onChild (ch.get? 1) false (fun c1 => c1.type ≠ "Empty")
      let rcond : GenOut := onChild (ch.get? 1) ⟨[], ri.tc, ri.lc + 2, none⟩
        (fun c1 =>
          if c1.type = "Empty" then ⟨[], ri.tc, ri.lc + 2, none⟩
          else genVisit f c1 ri.tc (ri.lc + 2))
      let rb : GenOut := onChild (ch.get? 3) ⟨[], rcond.tc, rcond.lc, none⟩
        (fun c3 => genVisit f c3 rcond.tc rcond.lc)
      let rs : GenOut := onChild (ch.get? 2) ⟨[], rb.tc, rb.lc, none⟩
        (fun c2 =>
          if c2.type = "Empty" then ⟨[], rb.tc, rb.lc, none⟩ else genVisit f c2 rb.tc rb.lc)
      genForShape ri hasCond rcond rb rs
    | .returnStmt =>
      onChild (ch.get? 0) ⟨[⟨"RET", none, none, none⟩], t, l, none⟩ (fun c0 =>
        let r := genVisit f c0 t l
        ⟨r.ins ++ [⟨"RET", none, some (jsOr r.res ""), none⟩], r.tc, r.lc, none⟩)
    | .printStmt =>
      onChild (ch.get? 0) ⟨[⟨"PRINT", none, some "", none⟩], t, l, none⟩ (fun c0 =>
        let r := genVisit f c0 t l
        ⟨r.ins ++ [⟨"PRINT", none, some (jsOr r.res ""), none⟩], r.tc, r.lc, none⟩)
    | .assign =>
      let rr : GenOut := onChild (ch.get? 1) ⟨[], t, l, none⟩ (fun c1 => genVisit f c1 t l)
      let leftName := jsOr (childValue ch 0) ""
      ⟨rr.ins ++ [⟨"ASSIGN", some leftName, some (jsOr rr.res ""), none⟩],
        rr.tc, rr.lc, some leftName⟩
    | .logicalOr =>
      let rl : GenOut := onChild (ch.get? 0) ⟨[], t + 1, l + 2, none⟩
        (fun c0 => genVisit f c0 (t + 1) (l + 2))
      let rr : GenOut := onChild (ch.get? 1) ⟨[], rl.tc, rl.lc, none⟩
        (fun c1 => genVisit f c1 rl.tc rl.lc)
      genShortCircuit ("t" ++ Nat.repr t) ("L" ++ Nat.repr (l + 1)) "JUMPTRUE" rl rr
    | .logicalAnd =>
      let rl : GenOut := onChild (ch.get? 0) ⟨[], t + 1, l + 2, none⟩
        (fun c0 => genVisit f c0 (t + 1) (l + 2))
      let rr : GenOut := onChild (ch.get? 1) ⟨[], rl.tc, rl.lc, none⟩
        (fun c1 => genVisit f c1 rl.tc rl.lc)
      genShortCircuit ("t" ++ Nat.repr t) ("L" ++ Nat.repr (l + 1)) "JUMPFALSE" rl rr
    | .binOp =>
      let rl : GenOut := onChild (ch.get? 0) ⟨[], t, l, none⟩ (fun c0 => genVisit f c0 t l)
      let rr : GenOut := onChild (ch.get? 1) ⟨[], rl.tc, rl.lc, none⟩
        (fun c1 => genVisit f c1 rl.tc rl.lc)
      genBinShape ((binOpIR ty).getD "") rl rr
    | .unaryOp =>
      let r : GenOut := onChild (ch.get? 0) ⟨[], t, l, none⟩ (fun c0 => genVisit f c0 t l)
      genUnaryShape (if ty = "LogicalNot" then "NOT" else "NEG") r
    | .call =>
      let ra : GenArgsOut := genArgs f ch.rest t l
      genCallShape (jsOr (childValue ch 0) "") ra
    | .numberLit => ⟨[], t, l, some (jsOr v "0")⟩
    | .stringLit => ⟨[], t, l, some (jsOr v "\"\"")⟩
    | .boolLit => ⟨[], t, l, some (jsOr v "false")⟩
    | .ident => ⟨[], t, l, some (jsOr v "")⟩
    | .grouping =>
      onChild (ch.get? 0) ⟨[], t, l, none⟩ (fun c0 => genVisit f c0 t l)
    | .other =>
      let r := genList f ch t l
      ⟨r.ins, r.tc, r.lc, none⟩
termination_by structural f _ _ _ => f

/-- visitChildren of ir-generator.ts. -/
def genList : Nat → ASTList → Nat → Nat → GenListOut
  | 0, _, t, l => ⟨[], t, l⟩
  | _ + 1, .nil, t, l => ⟨[], t, l⟩
  | f + 1, .cons n rest, t, l =>
    let r := genVisit f n t l
    let r2 := genList f rest r.tc r.lc
    ⟨r.ins ++ r2.ins, r2.tc, r2.lc⟩
termination_by structural f _ _ _ => f

/-- The argument-evaluation loop of the FunctionCall case (collects the truthy
operand results in evaluation order). -/
def genArgs : Nat → ASTList → Nat → Nat → GenArgsOut
  | 0, _, t, l => ⟨[], t, l, []⟩
  | _ + 1, .nil, t, l => ⟨[], t, l, []⟩
  | f + 1, .cons n rest, t, l =>
    let r := genVisit f n t l
    let r2 := genArgs f rest r.tc r.lc
    ⟨r.ins ++ r2.ins, r2.tc, r2.lc,
      (if jsTruthy r.res then [r.res.getD ""] else []) ++ r2.args⟩
termination_by structural f _ _ _ => f

end

/-- generateIR from ir-generator.ts: reset both counters, visit, return the list. -/
def generateIR (ast : ASTNode) : List IRInstruction :=
  (genVisit (astSizeN ast) ast 0 0).ins

/-! ## Semantic analyzer (the analyzer source file)

`Math.random().toString(36).substr(2, 9)` is modelled as an explicit stream
`s : Nat → String` with a call counter `ridx` in the analyzer state; run n of the
real program corresponds to some stream.  Where the source would crash on a missing
child or scope (never on the ASTs/states exercised by the theorems below), the
embedding is completed by skipping the access. -/

/-- Symbol from types.ts.  `initFlag` embeds the source field `initialized`;
`params` entries are (name, type) pairs. -/
structure Symbol where
  name : String
  type : String
  kind : String
  line : Nat
  column : Nat
  initFlag : Bool
  params : Option (List (String × String))
  returnType : Option String
deriving DecidableEq

/-- Scope from types.ts: { parent, symbols }. -/
structure Scope where
  parent : Option String
  symbols : List (String × Symbol)
deriving DecidableEq

/-- SymbolTable from types.ts: { scopes, currentScope }. -/
structure SymbolTable where
  scopes : List (String × Scope)
  currentScope : String
deriving DecidableEq

/-- Mutable analyzer state: the table, the error sink, and the position in the
modelled Math.random stream. -/
structure AState where
  table : SymbolTable
  errors : List CompilerError
  ridx : Nat
deriving DecidableEq

/-- The enterScope helper: registers the scope (overwriting any scope of the same
name) and makes it current. -/
def enterScope (name : String) (st : AState) : AState :=
  { st with table := { scopes := updateA st.table.scopes name ⟨some st.table.currentScope, []⟩,
                       currentScope := name } }

/-- The exitScope helper: currentScope := scopes[currentScope].parent || "global".
(On a missing scope the source would crash; the embedding falls back to "global",
a state no theorem below reaches.) -/
def exitScope (st : AState) : AState :=
  { st with table := { st.table with
      currentScope :=
        jsOr ((lookupA st.table.scopes st.table.currentScope).bind Scope.parent) ("global") } }

/-- The declareSymbol helper: redeclaration in the same scope is an error quoting
the prior site; otherwise the symbol is added to the current scope. -/
def declareSymbol (name ty kind : String) (node : ASTNode)
    (params : Option (List (String × String))) (returnType : Option String)
    (st : AState) : AState :=
  match lookupA st.table.scopes st.table.currentScope with
  | none => st
  | some sc =>
    match lookupA sc.symbols name with
    | some prior =>
      { st with errors := st.errors ++
          [⟨"Redeclaration of \x27" ++ name ++ "\x27. It was already declared at line " ++
            Nat.repr prior.line ++ ", column " ++ Nat.repr prior.column,
            node.line.getD 0, node.column.getD 0⟩] }
    | none =>
      let sc2 : Scope := { sc with symbols := sc.symbols ++
        [(name, ⟨name, ty, kind, node.line.getD 0, node.column.getD 0,
          kind = "parameter" || kind = "function", params, returnType⟩)] }
      { st with table := { st.table with
          scopes := updateA st.table.scopes st.table.currentScope sc2 } }

/-- The while loop of resolveSymbol: walk the parent chain (an empty parent string
ends the walk).  Fuel-indexed: the chain of every state reached by the theorems
below is acyclic, and scopes.length + 1 steps always reach its end.  Returns the
symbol together with the scope that owns it (the source holds a reference into
that scope's object). -/
def resolveGo (scopes : List (String × Scope)) (name : String) :
    Nat → String → Option (String × Symbol)
  | 0, _ => none
  | f + 1, scopeName =>
    if scopeName = "" then none
    else
      match lookupA scopes scopeName with
      | none => none
      | some sc =>
        match lookupA sc.symbols name with
        | some sym => some (scopeName, sym)
        | none => resolveGo scopes name f (jsOr sc.parent "")

/-- resolveSymbol: walk from the current scope; failure produces the
"Undefined symbol" diagnostic.  Read-only in the table; the errors are returned
for the caller to append. -/
def resolveR (tbl : SymbolTable) (name : String) (node : ASTNode) :
    Option (String × Symbol) × List CompilerError :=
  match resolveGo tbl.scopes name (tbl.scopes.length + 1) tbl.currentScope with
  | some r => (some r, [])
  | none =>
    (none, [⟨"Undefined symbol \x27" ++ name ++ "\x27",
      node.line.getD 0, node.column.getD 0⟩])

/-- `symbolTable.scopes[currentScope].symbols[varName].initialized = true`
(guarded by `if (symbol)`). -/
def markInitCurrent (varName : String) (st : AState) : AState :=
  match lookupA st.table.scopes st.table.currentScope with
  | none => st
  | some sc =>
    match lookupA sc.symbols varName with
    | none => st
    | some sym =>
      let sc2 : Scope := { sc with symbols := updateA sc.symbols varName ({ sym with initFlag := true }) }
      { st with table := { st.table with
          scopes := updateA st.table.scopes st.table.currentScope sc2 } }

/-- `symbol.initialized = true` through the reference returned by resolveSymbol:
mutates the symbol inside its owning scope. -/
def markInitAt (scName varName : String) (st : AState) : AState :=
  match lookupA st.table.scopes scName with
  | none => st
  | some sc =>
    match lookupA sc.symbols varName with
    | none => st
    | some sym =>
      let sc2 : Scope := { sc with symbols := updateA sc.symbols varName ({ sym with initFlag := true }) }
      { st with table := { st.table with
          scopes := updateA st.table.scopes scName sc2 } }

/-- The while loop of the ReturnStatement case: walk the chain up to the first
scope whose name starts with "function_". -/
def findFunctionScope (tbl : SymbolTable) : Nat → String → Option String
  | 0, _ => none
  | f + 1, name =>
    if name = "" then none
    else if strStartsWith name ("function_") then some name
    else
      match lookupA tbl.scopes name with
      | none => none
      | some sc => findFunctionScope tbl f (jsOr sc.parent "")

mutual

/-- getTypeOfNode: reads the table, yields the type and the diagnostics it pushes. -/
def getTypeOfNode (tbl : SymbolTable) : ASTNode → String × List CompilerError
  | .mk ty v ln col ch =>
    if ty = "NumberLiteral" then
      (match v with
       | some sv => if strContainsDot sv then "float" else "int"
       | none => "int", [])
    else if ty = "StringLiteral" then ("string", [])
    else if ty = "BooleanLiteral" then ("bool", [])
    else if ty = "Identifier" then
      let r := resolveR tbl (jsOr v "") (.mk ty v ln col ch)
      (match r.1 with
       | some p => p.2.type
       | none => "unknown", r.2)
    else if ty = "Addition" || ty = "Subtraction" || ty = "Multiplication" ||
        ty = "Division" || ty = "Modulo" then
      match ch with
      | .cons c0 (.cons c1 _) =>
        let rl := getTypeOfNode tbl c0
        let rr := getTypeOfNode tbl c1
        if rl.1 = "int" && rr.1 = "int" then ("int", rl.2 ++ rr.2)
        else if (rl.1 = "int" || rl.1 = "float") && (rr.1 = "int" || rr.1 = "float") then
          ("float", rl.2 ++ rr.2)
        else
          ("unknown", rl.2 ++ rr.2 ++
            [⟨"Invalid operand types for " ++ strToLower ty ++ ": " ++ rl.1 ++ " and " ++ rr.1,
              ln.getD 0, col.getD 0⟩])
      | _ => ("unknown", [])
    else if ty = "Equal" || ty = "NotEqual" || ty = "LessThan" || ty = "GreaterThan" ||
        ty = "LessThanEqual" || ty = "GreaterThanEqual" then ("bool", [])
    else if ty = "LogicalAnd" || ty = "LogicalOr" || ty = "LogicalNot" then ("bool", [])
    else if ty = "Negation" then
      match ch with
      | .cons c0 _ =>
        let r := getTypeOfNode tbl c0
        if r.1 ≠ "int" && r.1 ≠ "float" then
          (r.1, r.2 ++ [⟨"Cannot negate type " ++ r.1, ln.getD 0, col.getD 0⟩])
        else (r.1, r.2)
      | .nil => ("unknown", [])
    else if ty = "FunctionCall" then
      let funcName := jsOr (childValue ch 0) ""
      let r := resolveR tbl funcName (.mk ty v ln col ch)
      match r.1 with
      | some p =>
        if p.2.kind = "function" then
          let expectedArgCount := ((p.2.params.map (fun l => l.length)).getD 0)
          let actualArgCount := ch.length - 1
          if expectedArgCount ≠ actualArgCount then
            (jsOr p.2.returnType "void", r.2 ++
              [⟨"Function \x27" ++ funcName ++ "\x27 expects " ++ Nat.repr expectedArgCount ++
                " arguments, but got " ++ Nat.repr actualArgCount, ln.getD 0, col.getD 0⟩])
          else
            (jsOr p.2.returnType "void", r.2 ++
              (match ch with
               | .cons _ args => getTypeArgs tbl funcName (p.2.params.getD []) 0 args
               | .nil => []))
        else ("unknown", r.2)
      | none => ("unknown", r.2)
    else ("unknown", [])

/-- The per-argument type-check loop of the FunctionCall case (runs only when the
argument count matches). -/
def getTypeArgs (tbl : SymbolTable) (funcName : String) (ps : List (String × String))
    (i : Nat) : ASTList → List CompilerError
  | .nil => []
  | .cons a rest =>
    let r := getTypeOfNode tbl a
    let e :=
      match ps.get? i with
      | some p =>
        if p.2 ≠ r.1 && !(p.2 = "float" && r.1 = "int") then
          [⟨"Argument " ++ Nat.repr (i + 1) ++ " of function \x27" ++ funcName ++
            "\x27 expects type " ++ p.2 ++ ", but got " ++ r.1,
            a.line.getD 0, a.column.getD 0⟩]
        else []
      | none => []
    r.2 ++ e ++ getTypeArgs tbl funcName ps (i + 1) rest

end

/-- The default node used where the source would crash on a missing child. -/
def nullNode : ASTNode := .mk "" none none none .nil

/-- paramsNode.children (children[2] of a FunctionDeclaration). -/
def paramsChildren (ch : ASTList) : ASTList :=
  match ch.get? 2 with
  | some p => p.children
  | none => .nil

/-- The parameter-extraction forEach: collect (name, type) per Parameter child. -/
def extractParams : ASTList → List (String × String)
  | .nil => []
  | .cons p rest =>
    (jsOr (childValue p.children 1) "", jsOr (childValue p.children 0) "") ::
      extractParams rest

/-- The parameter-declaration forEach: declare each parameter in the function scope. -/
def declParams (ps : ASTList) (st : AState) : AState :=
  match ps with
  | .nil => st
  | .cons p rest =>
    let pty := jsOr (childValue p.children 0) ""
    let pname := jsOr (childValue p.children 1) ""
    let pnode := (p.children.get? 1).getD nullNode
    declParams rest (declareSymbol pname pty "parameter" pnode none none st)

/-- The switch labels of the analyzer's visitNode (IfStatement, WhileStatement
and ForStatement share one falling-through case in the source). -/
inductive AKind where
  | program
  | functionDecl
  | varDecl
  | block
  | conditional
  | returnStmt
  | assign
  | printStmt
  | other
deriving DecidableEq

/-- Classify a node type string into its analyzer switch case. -/
def aKind (ty : String) : AKind :=
  if ty = "Program" then .program
  else if ty = "FunctionDeclaration" then .functionDecl
  else if ty = "VariableDeclaration" then .varDecl
  else if ty = "Block" then .block
  else if ty = "IfStatement" || ty = "WhileStatement" || ty = "ForStatement" then .conditional
  else if ty = "ReturnStatement" then .returnStmt
  else if ty = "Assignment" then .assign
  else if ty = "PrintStatement" then .printStmt
  else .other

/-- Program case, after the children are visited: the global scope must hold a
function symbol `main`. -/
def mainCheck (st : AState) : AState :=
  let mainOk : Bool :=
    match lookupA st.table.scopes "global" with
    | some g =>
      match lookupA g.symbols "main" with
      | some m => m.kind = "function"
      | none => false
    | none => false
  if mainOk then st
  else { st with errors := st.errors ++ [⟨"Program must have a main function", 0, 0⟩] }

/-- FunctionDeclaration case up to the body visit: declare the function in the
enclosing scope, enter scope function_<name>, declare the parameters there. -/
def funcDeclEnter (ch : ASTList) (st : AState) : AState :=
  let returnType := jsOr (childValue ch 0) "void"
  let funcName := jsOr (childValue ch 1) ""
  let params := extractParams (paramsChildren ch)
  let identNode : ASTNode := (ch.get? 1).getD nullNode
  let st1 := declareSymbol funcName "function" "function" identNode
    (some params) (some returnType) st
  let st2 := enterScope ("function_" ++ funcName) st1
  declParams (paramsChildren ch) st2

/-- The whole VariableDeclaration case: declare, check the initializer type,
mark initialized. -/
def visitVarDecl (ch : ASTList) (st : AState) : AState :=
  let varType := jsOr (childValue ch 0) ""
  let varName := jsOr (childValue ch 1) ""
  let identNode := (ch.get? 1).getD nullNode
  let st1 := declareSymbol varName varType "variable" identNode none none st
  onChild (ch.get? 2) st1 (fun initExpr =>
    let r := getTypeOfNode st1.table initExpr
    let st2 := { st1 with errors := st1.errors ++ r.2 }
    let st3 :=
      if varType ≠ r.1 && !(varType = "float" && r.1 = "int") then
        { st2 with errors := st2.errors ++
          [⟨"Cannot initialize variable of type \x27" ++ varType ++
            "\x27 with value of type \x27" ++ r.1 ++ "\x27",
            initExpr.line.getD 0, initExpr.column.getD 0⟩] }
      else st2
    markInitCurrent varName st3)

/-- If/While/For case precheck: the condition (children[0]) must be bool. -/
def condCheck (ch : ASTList) (st : AState) : AState :=
  let condNode := (ch.get? 0).getD nullNode
  let r := getTypeOfNode st.table condNode
  let st1 := { st with errors := st.errors ++ r.2 }
  if r.1 ≠ "bool" then
    { st1 with errors := st1.errors ++
      [⟨"Condition must be of type \x27bool\x27, but got \x27" ++ r.1 ++ "\x27",
        condNode.line.getD 0, condNode.column.getD 0⟩] }
  else st1

/-- ReturnStatement case precheck: locate the enclosing function scope through
the parent chain and compare the returned type with its declared return type. -/
def returnCheck (ln col : Option Nat) (ch : ASTList) (st : AState) : AState :=
  match findFunctionScope st.table (st.table.scopes.length + 1) st.table.currentScope with
  | none => st
  | some fs =>
    let functionName := strDrop fs 9
    match lookupA st.table.scopes "global" with
    | none => st
    | some g =>
      match lookupA g.symbols functionName with
      | none => st
      | some fsym =>
        let expectedReturnType := jsOr fsym.returnType "void"
        match ch.get? 0 with
        | some returnExpr =>
          let r := getTypeOfNode st.table returnExpr
          let stE := { st with errors := st.errors ++ r.2 }
          if expectedReturnType = "void" then
            { stE with errors := stE.errors ++
              [⟨"Function \x27" ++ functionName ++
                "\x27 has void return type but returns a value",
                ln.getD 0, col.getD 0⟩] }
          else if expectedReturnType ≠ r.1 &&
              !(expectedReturnType = "float" && r.1 = "int") then
            { stE with errors := stE.errors ++
              [⟨"Function \x27" ++ functionName ++ "\x27 expects return type \x27" ++
                expectedReturnType ++ "\x27, but got \x27" ++ r.1 ++ "\x27",
                returnExpr.line.getD 0, returnExpr.column.getD 0⟩] }
          else stE
        | none =>
          if expectedReturnType ≠ "void" then
            { st with errors := st.errors ++
              [⟨"Function \x27" ++ functionName ++ "\x27 expects return type \x27" ++
                expectedReturnType ++ "\x27, but no value is returned",
                ln.getD 0, col.getD 0⟩] }
          else st

/-- Assignment case precheck: left side must be an identifier naming a variable
or parameter; check the assigned type and mark the symbol initialized. -/
def assignCheck (ln col : Option Nat) (ch : ASTList) (st : AState) : AState :=
  let leftNode := (ch.get? 0).getD nullNode
  let rightNode := (ch.get? 1).getD nullNode
  if leftNode.type ≠ "Identifier" then
    { st with errors := st.errors ++
      [⟨"Left side of assignment must be a variable",
        leftNode.line.getD 0, leftNode.column.getD 0⟩] }
  else
    let varName := jsOr leftNode.value ""
    let res := resolveR st.table varName leftNode
    let stR := { st with errors := st.errors ++ res.2 }
    match res.1 with
    | none => stR
    | some p =>
      if p.2.kind ≠ "variable" && p.2.kind ≠ "parameter" then
        { stR with errors := stR.errors ++
          [⟨"Cannot assign to \x27" ++ varName ++ "\x27 because it is not a variable",
            leftNode.line.getD 0, leftNode.column.getD 0⟩] }
      else
        let r := getTypeOfNode stR.table rightNode
        let stT := { stR with errors := stR.errors ++ r.2 }
        let stU :=
          if p.2.type ≠ r.1 && !(p.2.type = "float" && r.1 = "int") then
            { stT with errors := stT.errors ++
              [⟨"Cannot assign value of type \x27" ++ r.1 ++
                "\x27 to variable of type \x27" ++ p.2.type ++ "\x27",
                ln.getD 0, col.getD 0⟩] }
          else stT
        markInitAt p.1 varName stU

mutual

/-- visitNode of the analyzer source.  Fuel-indexed like the IR generator;
`analyze` supplies `astSizeN ast`, which the fuel-stability theorem below shows
is always sufficient. -/
def visitNode : Nat → (Nat → String) → ASTNode → AState → AState
  | 0, _, _, st => st
  | f + 1, s, .mk ty _ ln col ch, st =>
    match aKind ty with
    | .program => mainCheck (visitList f s ch st)
    | .functionDecl =>
      let st3 := funcDeclEnter ch st
      exitScope (onChild (ch.get? 3) st3 (fun b => visitNode f s b st3))
    | .varDecl => visitVarDecl ch st
    | .block =>
      let st1 := enterScope ("block_" ++ s st.ridx) { st with ridx := st.ridx + 1 }
      exitScope (visitList f s ch st1)
    | .conditional => visitList f s ch (condCheck ch st)
    | .returnStmt => visitList f s ch (returnCheck ln col ch st)
    | .assign => visitList f s ch (assignCheck ln col ch st)
    | .printStmt => visitList f s ch st
    | .other => visitList f s ch st
termination_by structural f _ _ _ => f

/-- visitChildren of the analyzer source. -/
def visitList : Nat → (Nat → String) → ASTList → AState → AState
  | 0, _, _, st => st
  | _ + 1, _, .nil, st => st
  | f + 1, s, .cons n rest, st => visitList f s rest (visitNode f s n st)
termination_by structural f _ _ _ => f

end

/-- The initial symbol table: one empty global scope. -/
def initialTable : SymbolTable := ⟨[("global", ⟨none, []⟩)], "global"⟩

/-- analyze from the analyzer source, with the Math.random stream explicit. -/
def analyze (s : Nat → String) (ast : ASTNode) : SymbolTable × List CompilerError :=
  let st := visitNode (astSizeN ast) s ast ⟨initialTable, [], 0⟩
  (st.table, st.errors)

/-! ## Definitions supporting the claim statements -/

/-- Constant propagation as the spec describes it: ONE forward scan in which each
instruction is first rewritten with the map as it stands at that position, and the
map is then updated by the add/update/invalidate rules.  (Written from the spec
sentence, to be compared with `constantPropagation` from the source.) -/
def singleScanCP (m : List (String × String)) : List IRInstruction → List IRInstruction
  | [] => []
  | i :: rest =>
    let i2 := cpSubst m i
    i2 :: singleScanCP (cpStep m i2) rest

/-- The folding guard of constantFolding: an arithmetic/comparison op with both
operands numeric, excluding division/modulo by zero. -/
def foldableB (i : IRInstruction) : Bool :=
  (ARITH_OPS.contains i.op || CMP_OPS.contains i.op) &&
  (match parseFloatJs (i.arg1.getD ""), parseFloatJs (i.arg2.getD "") with
   | some _, some b => !((i.op = "DIV" || i.op = "MOD") && b.isZero)
   | _, _ => false)

/-- Normal form for the optimizer: no NOP, nothing foldable, no constant ASSIGN to
track, and every ASSIGN target used as an operand somewhere in the list.  On such a
list each of the three passes is the identity. -/
def normalIR (xs : List IRInstruction) : Bool :=
  xs.all (fun i =>
    !(i.op = "NOP") && !(foldableB i) &&
    !(i.op = "ASSIGN" && jsTruthy i.result && jsTruthy i.arg1 && isNumeric (i.arg1.getD "")) &&
    (!(i.op = "ASSIGN" && jsTruthy i.result) || (collectUsed [] xs).contains (i.result.getD "")))

def JUMP_OPS : List String := ["JUMP", "JUMPTRUE", "JUMPFALSE"]

/-- Number of LABEL instructions whose result is the given target. -/
def labelCount (ir : List IRInstruction) (tgt : Option String) : Nat :=
  (ir.filter (fun j => j.op = "LABEL" && j.result = tgt)).length

/-- Every JUMP, JUMPTRUE and JUMPFALSE instruction of `ir` targets the result of
some LABEL instruction of `L`. -/
def coversIn (L ir : List IRInstruction) : Prop :=
  ∀ i ∈ ir, i.op ∈ JUMP_OPS → ∃ j ∈ L, j.op = "LABEL" ∧ j.result = i.result

/-- All-elements test over an ASTList. -/
def astAll (p : ASTNode → Bool) : ASTList → Bool
  | .nil => true
  | .cons n rest => p n && astAll p rest

mutual

/-- Positional well-formedness per the §4.2 shape contracts: each node kind has
the child count its consumers index into. -/
def wfB : ASTNode → Bool
  | .mk ty _ _ _ ch =>
    wfListB ch &&
    (if ty = "FunctionDeclaration" then ch.length = 3 || ch.length = 4
     else if ty = "VariableDeclaration" then ch.length = 2 || ch.length = 3
     else if ty = "IfStatement" then ch.length = 2 || ch.length = 3
     else if ty = "WhileStatement" then ch.length = 2
     else if ty = "ForStatement" then ch.length = 4
     else if ty = "Assignment" || ty = "LogicalOr" || ty = "LogicalAnd" then ch.length = 2
     else if (binOpIR ty).isSome then ch.length = 2
     else if ty = "LogicalNot" || ty = "Negation" || ty = "Grouping" ||
         ty = "PrintStatement" then ch.length = 1
     else if ty = "FunctionCall" then 1 ≤ ch.length
     else if ty = "ReturnStatement" then ch.length ≤ 1
     else true)

def wfListB : ASTList → Bool
  | .nil => true
  | .cons n rest => wfB n && wfListB rest

end

mutual

/-- No FunctionDeclaration anywhere in the subtree. -/
def noFuncB : ASTNode → Bool
  | .mk ty _ _ _ ch => !(ty = "FunctionDeclaration") && noFuncListB ch

def noFuncListB : ASTList → Bool
  | .nil => true
  | .cons n rest => noFuncB n && noFuncListB rest

end

/-- A legal top-level declaration: a FunctionDeclaration with no nested function,
or any function-free subtree (the grammar produces exactly these under Program). -/
def topChildOk (n : ASTNode) : Bool :=
  if n.type = "FunctionDeclaration" then noFuncListB n.children else noFuncB n

/-- Program root whose FunctionDeclarations all sit directly under the root, as
every parser-produced AST has them. -/
def topLevelB : ASTNode → Bool
  | .mk ty _ _ _ ch => ty = "Program" && astAll topChildOk ch

/-- parent pointer of a scope entry (`Option (Option String)`: outer none = no
such scope). -/
def parentOf (tbl : SymbolTable) (k : String) : Option (Option String) :=
  (lookupA tbl.scopes k).map Scope.parent


/-- State relation left intact by the analyzer's non-scope-changing helpers:
same current scope, same random index, same parent pointer on every scope. -/
def scopePeer (st st2 : AState) : Prop :=
  st2.table.currentScope = st.table.currentScope ∧ st2.ridx = st.ridx ∧
  ∀ k, parentOf st2.table k = parentOf st.table k

/-- Outcome of visiting a function-free subtree: same current scope, the random
index only grows, and the parent pointer of every scope not named after a fresh
block id is unchanged. -/
def noFuncOut (s : Nat → String) (st st2 : AState) : Prop :=
  st2.table.currentScope = st.table.currentScope ∧
  st.ridx ≤ st2.ridx ∧
  ∀ k, (∀ j, st.ridx ≤ j → k ≠ "block_" ++ s j) → parentOf st2.table k = parentOf st.table k

/-- Injective stream standing in for Math.random in witnesses. -/
def streamW (n : Nat) : String := String.mk (List.replicate n 'a')

/-- Shorthand for building concrete test nodes (line/column empty: the analyzer
only copies them into diagnostics). -/
def nd (t : String) (v : Option String) (ch : List ASTNode) : ASTNode :=
  .mk t v none none (astL ch)

/-- AST of `int main() { return 0; }` per the §4.2 shape contracts. -/
def astMain : ASTNode :=
  nd "Program" none
    [nd "FunctionDeclaration" none
      [nd "Type" (some "int") [],
       nd "Identifier" (some "main") [],
       nd "Parameters" none [],
       nd "Block" none [nd "ReturnStatement" none [nd "NumberLiteral" (some "0") []]]]]

/-- AST of `int main() { int a = 2 + 3 * 4; return a; }` per the §4.2 contracts. -/
def astScenario2 : ASTNode :=
  nd "Program" none
    [nd "FunctionDeclaration" none
      [nd "Type" (some "int") [],
       nd "Identifier" (some "main") [],
       nd "Parameters" none [],
       nd "Block" none
         [nd "VariableDeclaration" none
           [nd "Type" (some "int") [],
            nd "Identifier" (some "a") [],
            nd "Addition" none
              [nd "NumberLiteral" (some "2") [],
               nd "Multiplication" none
                 [nd "NumberLiteral" (some "3") [],
                  nd "NumberLiteral" (some "4") []]]],
          nd "ReturnStatement" none [nd "Identifier" (some "a") []]]]]

/-- A function named like a generated label, containing an if statement: its
function LABEL collides with the else-label L0. -/
def astL0 : ASTNode :=
  nd "Program" none
    [nd "FunctionDeclaration" none
      [nd "Type" (some "int") [],
       nd "Identifier" (some "L0") [],
       nd "Parameters" none [],
       nd "Block" none
         [nd "IfStatement" none
           [nd "Identifier" (some "x") [],
            nd "Block" none []]]]]

/-- A FunctionDeclaration nested (as the body) inside a FunctionDeclaration of the
same name: entering the inner scope overwrites the outer scope entry of the same
name, so the exits read back a self-parent. -/
def astNested : ASTNode :=
  nd "Program" none
    [nd "FunctionDeclaration" none
      [nd "Type" (some "int") [],
       nd "Identifier" (some "f") [],
       nd "Parameters" none [],
       nd "FunctionDeclaration" none
         [nd "Type" (some "int") [],
          nd "Identifier" (some "f") [],
          nd "Parameters" none []]]]

/-- Counterexample IR for the single-scan description of constant propagation:
the ADD reads x before the ASSIGN x = 2. -/
def irC5 : List IRInstruction :=
  [⟨"ADD", some "t", some "x", some "1"⟩, ⟨"ASSIGN", some "x", some "2", none⟩]

/-- Counterexample IR for idempotence: removing the dead ASSIGN a = b removes the
only use of b, which the same run no longer sees. -/
def irC6 : List IRInstruction :=
  [⟨"ASSIGN", some "b", some "c", none⟩, ⟨"ASSIGN", some "a", some "b", none⟩]

/-- An IR already in optimizer normal form, for the idempotence witness. -/
def irW : List IRInstruction :=
  [⟨"ADD", some "t", some "x", some "y"⟩, ⟨"RET", none, some "t", none⟩]

/-! ## Theorems -/

/-- C1: the claim says compile is deterministic, in particular that the symbol
table (block-scope identifiers included) is identical across two runs on the same
input.  The analyzer names block scopes from Math.random, so the symbol table is a
function of the random stream: analyzing the AST of `int main() ... return 0 ...`
under two streams yields unequal symbol tables (scopes block_aaa vs block_bbb).
The code contradicts the spec's determinism invariant. -/
theorem analyze_symbol_table_depends_on_random_stream :
    (analyze (fun _ => "aaa") astMain).1 ≠ (analyze (fun _ => "bbb") astMain).1 := by
  decide

/-- C2: the claim says every two-character operator is emitted as one token.  The
operator regex alternation lists "=" before "==" (and "<" before "<=", ">" before
">="), and JS alternation is first-match, so the source "==" is emitted as two
one-character "=" Operator tokens. -/
theorem tokenize_double_equal_splits_into_two_tokens :
    tokenize ("==") = ([⟨"OPERATOR", "=", 1, 1⟩, ⟨"OPERATOR", "=", 1, 2⟩], []) := by
  decide

/-- C3: the claim says a line comment anywhere is consumed and contributes no
tokens.  COMMENT_SINGLE = /^\/\/.*$/ has no m flag, so it only matches when the
comment ends the whole input; an interior comment is instead lexed as two "/"
operators plus its words, and the line counter is not advanced by a comment
branch. -/
theorem tokenize_interior_line_comment_is_tokenized :
    tokenize ("// a\nx") =
      ([⟨"OPERATOR", "/", 1, 1⟩, ⟨"OPERATOR", "/", 1, 2⟩,
        ⟨"IDENTIFIER", "a", 1, 4⟩, ⟨"IDENTIFIER", "x", 2, 1⟩], []) := by
  decide

/-- C4 counterexample: on Scenario 2 the optimized IR is not the claimed
`ASSIGN a, 14` form — folding runs before propagation, so `ADD t1, 2, t0` is
never folded in a single optimizeIR application, and no `ASSIGN a, 14` exists. -/
theorem scenario2_optimized_ir_differs_from_claim :
    optimizeIR (generateIR astScenario2) ≠
      [⟨"LABEL", some "main", none, none⟩, ⟨"ENTER", none, none, none⟩,
       ⟨"ASSIGN", some "a", some "14", none⟩, ⟨"RET", none, some "a", none⟩,
       ⟨"LEAVE", none, none, none⟩, ⟨"RET", none, none, none⟩] ∧
    ¬ ((⟨"ASSIGN", some "a", some "14", none⟩ : IRInstruction) ∈
        optimizeIR (generateIR astScenario2)) := by
  constructor
  · decide
  · decide

/-- C4 amended: the raw IR is exactly as the claim states (MUL t0,3,4 then
ADD t1,2,t0 then ASSIGN a,t1 inside the frame), and optimizeIR of it yields,
besides the frame and RET a, the two instructions ADD t1,2,12 and ASSIGN a,t1
(not the single ASSIGN a,14 of the claim). -/
theorem scenario2_raw_and_optimized_ir :
    generateIR astScenario2 =
      [⟨"LABEL", some "main", none, none⟩, ⟨"ENTER", none, none, none⟩,
       ⟨"MUL", some "t0", some "3", some "4"⟩, ⟨"ADD", some "t1", some "2", some "t0"⟩,
       ⟨"ASSIGN", some "a", some "t1", none⟩, ⟨"RET", none, some "a", none⟩,
       ⟨"LEAVE", none, none, none⟩, ⟨"RET", none, none, none⟩] ∧
    optimizeIR (generateIR astScenario2) =
      [⟨"LABEL", some "main", none, none⟩, ⟨"ENTER", none, none, none⟩,
       ⟨"ADD", some "t1", some "2", some "12"⟩, ⟨"ASSIGN", some "a", some "t1", none⟩,
       ⟨"RET", none, some "a", none⟩, ⟨"LEAVE", none, none, none⟩,
       ⟨"RET", none, none, none⟩] := by
  constructor
  · decide
  · decide

/-- C5 counterexample: constant propagation is not the claimed single scan
substituting with the map at each position — on `[ADD t,x,1; ASSIGN x,2]` the
single scan leaves the ADD alone (x is not yet tracked there), but the source's
two-pass version rewrites it to ADD t,2,1 using the later assignment. -/
theorem constant_propagation_not_single_scan :
    constantPropagation irC5 ≠ singleScanCP [] irC5 := by
  decide

/-- C5 amended: constant propagation is two forward scans: the first builds the
final var-to-constant map by the stated add/update/invalidate rules, and the
second substitutes every tracked arg1/arg2 occurrence using that completed map
(so a use can be rewritten from an assignment later in the list). -/
theorem constant_propagation_is_final_map_substitution :
    ∀ ir : List IRInstruction,
      constantPropagation ir = ir.map (cpSubst (cpPass1 [] ir)) := by
  have hmap : ∀ (m : List (String × String)) (l : List IRInstruction),
      cpPass2 m l = l.map (cpSubst m) := by
    intro m l
    induction l with
    | nil => rfl
    | cons i rest ih => simp [cpPass2, ih]
  intro ir
  rw [constantPropagation, hmap]

/-- C7 counterexample: the minimal program does not lex to 8 tokens. -/
theorem minimal_program_token_count_not_8 :
    (tokenize ("int main() \x7b return 0; \x7d")).1.length ≠ 8 := by
  decide

/-- C7 amended: for `int main() { return 0; }` the lexer reports no lexical errors
and produces exactly 9 tokens (int, main, two parentheses, two braces, return, 0,
and the semicolon). -/
theorem minimal_program_lexes_to_9_tokens :
    (tokenize ("int main() \x7b return 0; \x7d")).1.length = 9 ∧
    (tokenize ("int main() \x7b return 0; \x7d")).2 = [] := by
  constructor
  · decide
  · decide

/-- Every successful whitespace match is nonempty. -/
theorem matchWhitespace_len {cs w : List Char} (h : matchWhitespace cs = some w) :
    1 ≤ w.length := by
  unfold matchWhitespace at h
  rcases hw : cs.takeWhile isJsSpace with _ | ⟨c, t⟩ <;> rw [hw] at h <;> simp at h
  simp [← h]

/-- Every successful single-line-comment match is nonempty. -/
theorem matchCommentSingle_len {cs m : List Char} (h : matchCommentSingle cs = some m) :
    1 ≤ m.length := by
  unfold matchCommentSingle at h
  split at h
  · split at h
    · obtain rfl := Option.some.inj h
      simp
    · simp at h
  · simp at h

/-- Every successful multi-line-comment match is nonempty. -/
theorem matchCommentMulti_len {cs m : List Char} (h : matchCommentMulti cs = some m) :
    1 ≤ m.length := by
  unfold matchCommentMulti at h
  split at h
  · rcases Option.map_eq_some'.mp h with ⟨x, _, hx⟩
    simp [← hx]
  · simp at h

/-- Every successful identifier match is nonempty. -/
theorem matchIdentifier_len {cs m : List Char} (h : matchIdentifier cs = some m) :
    1 ≤ m.length := by
  unfold matchIdentifier at h
  split at h
  · split at h
    · obtain rfl := Option.some.inj h
      simp
    · simp at h
  · simp at h

/-- Every successful number match is nonempty. -/
theorem matchNumber_len {cs m : List Char} (h : matchNumber cs = some m) :
    1 ≤ m.length := by
  unfold matchNumber at h
  rcases hw : cs.takeWhile isDigitC with _ | ⟨c, t⟩ <;> rw [hw] at h
  · simp at h
  · simp only [List.isEmpty_cons, Bool.false_eq_true, if_false] at h
    split at h
    · split at h <;>
        · obtain rfl := Option.some.inj h
          simp
    · obtain rfl := Option.some.inj h
      simp

/-- Every successful string-literal match is nonempty. -/
theorem matchString_len {cs m : List Char} (h : matchString cs = some m) :
    1 ≤ m.length := by
  unfold matchString at h
  split at h
  · rcases Option.map_eq_some'.mp h with ⟨x, _, hx⟩
    simp [← hx]
  · simp at h

/-- A first-prefix match out of nonempty patterns is nonempty. -/
theorem firstPrefixMatch_len :
    ∀ (pats : List String) {cs m : List Char},
      (∀ p ∈ pats, p.data ≠ []) → firstPrefixMatch pats cs = some m → 1 ≤ m.length := by
  intro pats
  induction pats with
  | nil => intro cs m _ h; simp [firstPrefixMatch] at h
  | cons p rest ih =>
    intro cs m hne h
    unfold firstPrefixMatch at h
    split at h
    · have hp : p.data ≠ [] := hne p (by simp)
      cases h
      rcases hd : p.data with _ | ⟨c, t⟩
      · exact absurd hd hp
      · simp [hd]
    · exact ih (fun q hq => hne q (by simp [hq])) h

/-- Each iteration of the scan loop consumes at least one character. -/
theorem scanOne_consumed_pos (cs : List Char) (line col : Nat) :
    1 ≤ (scanOne cs line col).consumed := by
  unfold scanOne
  split
  · next w hw => simpa using matchWhitespace_len hw
  · split
    · next m hm => simpa using matchCommentSingle_len hm
    · split
      · next m hm => simpa using matchCommentMulti_len hm
      · split
        · next m hm => simpa using matchIdentifier_len hm
        · split
          · next m hm => simpa using matchNumber_len hm
          · split
            · next m hm => simpa using matchString_len hm
            · split
              · next m hm =>
                simpa using firstPrefixMatch_len OPERATORS (by decide) hm
              · split
                · next m hm =>
                  simpa using firstPrefixMatch_len PUNCTUATION (by decide) hm
                · simp

/-- Fuel never matters once it reaches the input length: the scan loop finishes
within |input| iterations. -/
theorem tokenizeAux_fuel :
    ∀ (n : Nat) (cs : List Char), cs.length ≤ n →
      ∀ (f : Nat) (line col : Nat), cs.length ≤ f →
        tokenizeAux f cs line col = tokenizeAux cs.length cs line col := by
  intro n
  induction n with
  | zero =>
    intro cs hcs f line col _
    have hnil : cs = [] := List.length_eq_zero.mp (Nat.le_zero.mp hcs)
    subst hnil
    cases f <;> rfl
  | succ n ih =>
    intro cs hcs f line col hf
    cases cs with
    | nil => cases f <;> rfl
    | cons c rest =>
      cases f with
      | zero => simp at hf
      | succ f' =>
        have hpos := scanOne_consumed_pos (c :: rest) line col
        simp only [tokenizeAux]
        have hdlen : ((c :: rest).drop (scanOne (c :: rest) line col).consumed).length
            ≤ rest.length := by
          simp only [List.length_drop, List.length_cons]
          omega
        have h1 := ih ((c :: rest).drop (scanOne (c :: rest) line col).consumed)
          (le_trans hdlen (by simpa using Nat.lt_succ_iff.mp (Nat.lt_of_lt_of_le
            (Nat.lt_succ_of_le (le_refl _)) hcs)))
          f' (scanOne (c :: rest) line col).line (scanOne (c :: rest) line col).col
          (le_trans hdlen (by simpa using hf))
        have h2 := ih ((c :: rest).drop (scanOne (c :: rest) line col).consumed)
          (le_trans hdlen (by simpa using Nat.lt_succ_iff.mp (Nat.lt_of_lt_of_le
            (Nat.lt_succ_of_le (le_refl _)) hcs)))
          rest.length (scanOne (c :: rest) line col).line (scanOne (c :: rest) line col).col
          hdlen
        rw [h1, h2]

/-- C10: tokenize terminates on every finite input — each iteration of the scan
loop consumes at least one character (every matched lexeme is nonempty and the
unmatched branch advances by one), so the loop is well-founded on the remaining
length: fuel equal to the input length always suffices. -/
theorem tokenize_scan_terminates :
    (∀ (cs : List Char) (line col : Nat), cs ≠ [] → 1 ≤ (scanOne cs line col).consumed) ∧
    (∀ (f : Nat) (cs : List Char) (line col : Nat), cs.length ≤ f →
      tokenizeAux f cs line col = tokenizeAux cs.length cs line col) := by
  constructor
  · intro cs line col _
    exact scanOne_consumed_pos cs line col
  · intro f cs line col hf
    exact tokenizeAux_fuel cs.length cs (le_refl _) f line col hf

/-- Witness for C10 at a concrete input. -/
theorem tokenize_scan_terminates_witness :
    1 ≤ (scanOne ['a'] 1 1).consumed ∧ tokenizeAux 5 ['a'] 1 1 = tokenizeAux 1 ['a'] 1 1 :=
  ⟨tokenize_scan_terminates.1 ['a'] 1 1 (by decide),
   tokenize_scan_terminates.2 5 ['a'] 1 1 (by decide)⟩

/-- C6 counterexample: the optimizer is not idempotent — on
`[ASSIGN b,c; ASSIGN a,b]` the first run removes the dead `ASSIGN a,b` (the only
use of b), and the second run then also removes `ASSIGN b,c`. -/
theorem optimizeIR_not_idempotent :
    optimizeIR (optimizeIR irC6) ≠ optimizeIR irC6 := by
  decide

/-- A non-foldable instruction is left unchanged by the folding pass. -/
theorem foldInstr_id {i : IRInstruction} (h : foldableB i = false) : foldInstr i = i := by
  unfold foldableB at h
  unfold foldInstr
  rcases hp1 : parseFloatJs (i.arg1.getD "") with _ | a <;>
    rcases hp2 : parseFloatJs (i.arg2.getD "") with _ | b <;>
      simp only [hp1, hp2] at h ⊢
  · split <;> [rfl; skip]
    split <;> rfl
  · split <;> [rfl; skip]
    split <;> rfl
  · split <;> [rfl; skip]
    split <;> rfl
  · split
    · next harith =>
      rw [harith] at h
      simp at h
      obtain ⟨hop, hz⟩ := h
      by_cases hD : i.op = "DIV"
      · rw [hD]
        simp [foldArith, hz]
      · have hM : i.op = "MOD" := hop hD
        rw [hM]
        simp [foldArith, hz]
    · split
      · next harith hcmp =>
        rw [hcmp] at h
        simp at h
        obtain ⟨hop, hz⟩ := h
        by_cases hD : i.op = "DIV"
        · rw [hD] at hcmp
          exact absurd hcmp (by decide)
        · have hM : i.op = "MOD" := hop hD
          rw [hM] at hcmp
          exact absurd hcmp (by decide)
      · rfl

/-- cpStep keeps the map empty unless the instruction is a tracked constant ASSIGN. -/
theorem cpStep_empty {i : IRInstruction}
    (h : (i.op = "ASSIGN" && jsTruthy i.result && jsTruthy i.arg1 &&
      isNumeric (i.arg1.getD "")) = false) :
    cpStep [] i = [] := by
  unfold cpStep
  rw [h]
  simp only [Bool.false_eq_true, if_false]
  have h2 : (if (i.op = "ASSIGN" && jsTruthy i.result && jsTruthy i.arg1) = true then
      lookupTruthy [] (i.arg1.getD "") else none) = none := by
    split <;> rfl
  rw [h2]
  show (if jsTruthy i.result = true then removeA [] (i.result.getD "") else []) = []
  split <;> rfl

/-- Substitution with the empty map changes nothing in one operand. -/
theorem substOne_empty (o : Option String) : substOne [] o = o := by
  rcases o with _ | a
  · rfl
  · unfold substOne
    by_cases ha : a = ""
    · simp [ha]
    · have hl : lookupTruthy [] a = none := rfl
      simp [ha, hl]

/-- Substitution with the empty map is the identity. -/
theorem cpSubst_empty (i : IRInstruction) : cpSubst [] i = i := by
  unfold cpSubst
  rw [substOne_empty, substOne_empty]

/-- A used-or-not-an-assignment instruction is left unchanged by the DCE mark pass. -/
theorem dceMark_id {used : List String} {i : IRInstruction}
    (h : (!(i.op = "ASSIGN" && jsTruthy i.result) || used.contains (i.result.getD "")) = true) :
    dceMark used i = i := by
  unfold dceMark
  split
  · next hc =>
    exfalso
    simp only [Bool.and_eq_true] at hc
    obtain ⟨⟨h1, h2⟩, h3⟩ := hc
    have hab : (decide (i.op = "ASSIGN") && jsTruthy i.result) = true := by
      rw [h1, h2]
      rfl
    rw [Bool.or_eq_true] at h
    rcases h with h | h
    · rw [Bool.not_eq_true'] at h
      rw [hab] at h
      simp at h
    · rw [h] at h3
      simp at h3
  · rfl

/-- On a normal-form list every optimizer pass is the identity. -/
theorem optimizeIR_normal_fixed {xs : List IRInstruction} (h : normalIR xs = true) :
    optimizeIR xs = xs := by
  unfold normalIR at h
  rw [List.all_eq_true] at h
  have hprops : ∀ i ∈ xs, i.op ≠ "NOP" ∧ foldableB i = false ∧
      (i.op = "ASSIGN" && jsTruthy i.result && jsTruthy i.arg1 &&
        isNumeric (i.arg1.getD "")) = false ∧
      (!(i.op = "ASSIGN" && jsTruthy i.result) ||
        (collectUsed [] xs).contains (i.result.getD "")) = true := by
    intro i hi
    have hx := h i hi
    simp only [Bool.and_eq_true] at hx
    obtain ⟨⟨⟨hn, hf⟩, ha⟩, hu⟩ := hx
    refine ⟨by simpa using hn, by rw [Bool.not_eq_true'] at hf; exact hf,
      by rw [Bool.not_eq_true'] at ha; exact ha, ?_⟩
    simpa [Bool.and_eq_true, Bool.or_eq_true] using hu
  have hmapid : ∀ (f : IRInstruction → IRInstruction) (l : List IRInstruction),
      (∀ i ∈ l, f i = i) → l.map f = l := by
    intro f l
    induction l with
    | nil => intro _; rfl
    | cons a t ih =>
      intro hl
      simp only [List.map_cons]
      rw [hl a (by simp), ih (fun i hi => hl i (by simp [hi]))]
  have hcf : constantFolding xs = xs := by
    unfold constantFolding
    exact hmapid _ _ (fun i hi => foldInstr_id (hprops i hi).2.1)
  have hpass1 : ∀ l : List IRInstruction, (∀ i ∈ l,
      (i.op = "ASSIGN" && jsTruthy i.result && jsTruthy i.arg1 &&
        isNumeric (i.arg1.getD "")) = false) → cpPass1 [] l = [] := by
    intro l
    induction l with
    | nil => intro _; rfl
    | cons a t ih =>
      intro hl
      unfold cpPass1
      rw [cpStep_empty (hl a (by simp))]
      exact ih (fun i hi => hl i (by simp [hi]))
  have hcp : constantPropagation xs = xs := by
    unfold constantPropagation
    rw [hpass1 xs (fun i hi => (hprops i hi).2.2.1)]
    have hp2 : ∀ l : List IRInstruction, cpPass2 [] l = l := by
      intro l
      induction l with
      | nil => rfl
      | cons a t ih =>
        unfold cpPass2
        rw [cpSubst_empty, ih]
    exact hp2 xs
  have hdce : deadCodeElimination xs = xs := by
    show ((xs.map (dceMark (collectUsed [] xs))).filter (fun i => i.op ≠ "NOP")) = xs
    rw [hmapid _ _ (fun i hi => dceMark_id (hprops i hi).2.2.2)]
    rw [List.filter_eq_self]
    intro i hi
    simpa using (hprops i hi).1
  unfold optimizeIR
  rw [hcf, hcp, hdce]

/-- C6 amended: the optimizer is not idempotent in general (see the
counterexample); running it twice equals running it once whenever the first run's
output is in normal form — no NOP, nothing foldable, no numeric-RHS ASSIGN, and
every ASSIGN target used as an operand. -/
theorem optimizeIR_idempotent_on_normal_output (ir : List IRInstruction)
    (h : normalIR (optimizeIR ir) = true) :
    optimizeIR (optimizeIR ir) = optimizeIR ir :=
  optimizeIR_normal_fixed h

/-- Witness for C6 at a concrete normal-form IR. -/
theorem optimizeIR_idempotent_witness :
    normalIR (optimizeIR irW) = true ∧ optimizeIR (optimizeIR irW) = optimizeIR irW :=
  ⟨by decide, optimizeIR_idempotent_on_normal_output irW (by decide)⟩

/-- Trivial coverage of the empty instruction list. -/
theorem coversIn_nil (L : List IRInstruction) : coversIn L [] := by
  intro i hi
  exact absurd hi (List.not_mem_nil i)

/-- Coverage is monotone in the label-providing list. -/
theorem coversIn_mono {L L' ir : List IRInstruction} (hs : ∀ j, j ∈ L → j ∈ L')
    (h : coversIn L ir) : coversIn L' ir := by
  intro i hi hj
  obtain ⟨j, hm, hp⟩ := h i hi hj
  exact ⟨j, hs j hm, hp⟩

/-- Coverage of an appended pair of instruction lists. -/
theorem coversIn_append {L ir1 ir2 : List IRInstruction}
    (h1 : coversIn L ir1) (h2 : coversIn L ir2) : coversIn L (ir1 ++ ir2) := by
  intro i hi hj
  rcases List.mem_append.mp hi with h | h
  · exact h1 i h hj
  · exact h2 i h hj

/-- Two self-covering lists append to a self-covering list. -/
theorem selfCovers_append {xs ys : List IRInstruction}
    (hx : coversIn xs xs) (hy : coversIn ys ys) : coversIn (xs ++ ys) (xs ++ ys) :=
  coversIn_append (coversIn_mono (fun _ hj => List.mem_append_left _ hj) hx)
    (coversIn_mono (fun _ hj => List.mem_append_right _ hj) hy)

/-- Self-coverage passes through the onChild child access. -/
theorem coversIn_onChild (c : Option ASTNode) (dflt : GenOut) (k : ASTNode → GenOut)
    (hd : coversIn dflt.ins dflt.ins) (hk : ∀ m, coversIn (k m).ins (k m).ins) :
    coversIn (onChild c dflt k).ins (onChild c dflt k).ins := by
  cases c with
  | none => exact hd
  | some m => exact hk m

/-- A non-jump instruction is covered by any list. -/
theorem coversIn_single_nonjump {L : List IRInstruction} (i : IRInstruction)
    (hi : i.op ∉ JUMP_OPS) : coversIn L [i] := by
  intro a ha hj
  rw [List.mem_singleton] at ha
  subst ha
  exact absurd hj hi

/-- No binary-operator opcode is a jump. -/
theorem binOpIR_getD_not_jump (ty : String) : (binOpIR ty).getD "" ∉ JUMP_OPS := by
  unfold binOpIR
  repeat' split
  all_goals decide

/-- Neither unary opcode is a jump. -/
theorem unary_not_jump (ty : String) :
    (if ty = "LogicalNot" then "NOT" else "NEG") ∉ JUMP_OPS := by
  split <;> decide

/-- The FunctionDeclaration emission is self-covering when its body is. -/
theorem coversIn_genFunctionShape (fn : String) (body : GenOut)
    (hb : coversIn body.ins body.ins) :
    coversIn (genFunctionShape fn body).ins (genFunctionShape fn body).ins := by
  intro i hi hj
  simp only [genFunctionShape, List.mem_cons, List.mem_append, List.mem_singleton,
    List.not_mem_nil, or_false] at hi
  rcases hi with (h | h | h) | h | h
  · subst h; simp [JUMP_OPS] at hj
  · subst h; simp [JUMP_OPS] at hj
  · obtain ⟨j, hm, hp⟩ := hb i h hj
    refine ⟨j, ?_, hp⟩
    simp only [genFunctionShape, List.mem_cons, List.mem_append, List.mem_singleton]
    tauto
  · subst h; simp [JUMP_OPS] at hj
  · subst h; simp [JUMP_OPS] at hj

/-- The IfStatement emission is self-covering: its JUMPFALSE and JUMP target the elseLabel and endLabel LABELs it itself emits. -/
theorem coversIn_genIfShape (rc rThen rElse : GenOut)
    (h1 : coversIn rc.ins rc.ins) (h2 : coversIn rThen.ins rThen.ins)
    (h3 : coversIn rElse.ins rElse.ins) :
    coversIn (genIfShape rc rThen rElse).ins (genIfShape rc rThen rElse).ins := by
  intro i hi hj
  simp only [genIfShape, List.mem_append, List.mem_cons, List.mem_singleton,
    List.not_mem_nil, or_false] at hi
  rcases hi with ((((h | h) | h) | h | h) | h) | h
  · obtain ⟨j, hm, hp⟩ := h1 i h hj
    refine ⟨j, ?_, hp⟩
    simp only [genIfShape, List.mem_append, List.mem_cons, List.mem_singleton,
      List.not_mem_nil, or_false]
    tauto
  · subst h
    refine ⟨⟨"LABEL", some ("L" ++ Nat.repr rc.lc), none, none⟩, ?_, rfl, rfl⟩
    simp only [genIfShape, List.mem_append, List.mem_cons, List.mem_singleton,
      List.not_mem_nil, or_false]
    tauto
  · obtain ⟨j, hm, hp⟩ := h2 i h hj
    refine ⟨j, ?_, hp⟩
    simp only [genIfShape, List.mem_append, List.mem_cons, List.mem_singleton,
      List.not_mem_nil, or_false]
    tauto
  · subst h
    refine ⟨⟨"LABEL", some ("L" ++ Nat.repr (rc.lc + 1)), none, none⟩, ?_, rfl, rfl⟩
    simp only [genIfShape, List.mem_append, List.mem_cons, List.mem_singleton,
      List.not_mem_nil, or_false]
    tauto
  · subst h
    simp [JUMP_OPS] at hj
  · obtain ⟨j, hm, hp⟩ := h3 i h hj
    refine ⟨j, ?_, hp⟩
    simp only [genIfShape, List.mem_append, List.mem_cons, List.mem_singleton,
      List.not_mem_nil, or_false]
    tauto
  · subst h
    simp [JUMP_OPS] at hj

/-- The WhileStatement emission is self-covering. -/
theorem coversIn_genWhileShape (l : Nat) (rc rb : GenOut)
    (h1 : coversIn rc.ins rc.ins) (h2 : coversIn rb.ins rb.ins) :
    coversIn (genWhileShape l rc rb).ins (genWhileShape l rc rb).ins := by
  intro i hi hj
  simp only [genWhileShape, List.mem_cons, List.mem_append, List.mem_singleton,
    List.not_mem_nil, or_false] at hi
  rcases hi with (((h | h) | h) | h) | h | h
  · subst h; simp [JUMP_OPS] at hj
  · obtain ⟨j, hm, hp⟩ := h1 i h hj
    refine ⟨j, ?_, hp⟩
    simp only [genWhileShape, List.mem_cons, List.mem_append, List.mem_singleton]
    tauto
  · subst h
    refine ⟨⟨"LABEL", some ("L" ++ Nat.repr (l + 1)), none, none⟩, ?_, rfl, rfl⟩
    simp only [genWhileShape, List.mem_cons, List.mem_append, List.mem_singleton]
    tauto
  · obtain ⟨j, hm, hp⟩ := h2 i h hj
    refine ⟨j, ?_, hp⟩
    simp only [genWhileShape, List.mem_cons, List.mem_append, List.mem_singleton]
    tauto
  · subst h
    refine ⟨⟨"LABEL", some ("L" ++ Nat.repr l), none, none⟩, ?_, rfl, rfl⟩
    simp only [genWhileShape, List.mem_cons, List.mem_append, List.mem_singleton]
    tauto
  · subst h; simp [JUMP_OPS] at hj

/-- The ForStatement emission is self-covering, with or without a condition clause. -/
theorem coversIn_genForShape (ri : GenOut) (hasCond : Bool) (rcond rb rs : GenOut)
    (h1 : coversIn ri.ins ri.ins) (h2 : coversIn rcond.ins rcond.ins)
    (h3 : coversIn rb.ins rb.ins) (h4 : coversIn rs.ins rs.ins) :
    coversIn (genForShape ri hasCond rcond rb rs).ins
      (genForShape ri hasCond rcond rb rs).ins := by
  cases hasCond with
  | false =>
    intro i hi hj
    simp only [genForShape, Bool.false_eq_true, if_false, List.mem_cons, List.mem_append,
      List.mem_singleton, List.not_mem_nil, or_false, false_or, List.nil_append] at hi
    rcases hi with (((h | h) | h) | h) | h | h
    · obtain ⟨j, hm, hp⟩ := h1 i h hj
      refine ⟨j, ?_, hp⟩
      simp only [genForShape, Bool.false_eq_true, if_false, List.mem_cons, List.mem_append,
        List.mem_singleton, List.nil_append]
      tauto
    · subst h; simp [JUMP_OPS] at hj
    · obtain ⟨j, hm, hp⟩ := h3 i h hj
      refine ⟨j, ?_, hp⟩
      simp only [genForShape, Bool.false_eq_true, if_false, List.mem_cons, List.mem_append,
        List.mem_singleton, List.nil_append]
      tauto
    · obtain ⟨j, hm, hp⟩ := h4 i h hj
      refine ⟨j, ?_, hp⟩
      simp only [genForShape, Bool.false_eq_true, if_false, List.mem_cons, List.mem_append,
        List.mem_singleton, List.nil_append]
      tauto
    · subst h
      refine ⟨⟨"LABEL", some ("L" ++ Nat.repr ri.lc), none, none⟩, ?_, rfl, rfl⟩
      simp only [genForShape, Bool.false_eq_true, if_false, List.mem_cons, List.mem_append,
        List.mem_singleton, List.nil_append]
      tauto
    · subst h; simp [JUMP_OPS] at hj
  | true =>
    intro i hi hj
    simp only [genForShape, if_true, List.mem_cons, List.mem_append,
      List.mem_singleton, List.not_mem_nil, or_false, false_or] at hi
    rcases hi with (((h | h | h | h) | h) | h) | h | h
    · obtain ⟨j, hm, hp⟩ := h1 i h hj
      refine ⟨j, ?_, hp⟩
      simp only [genForShape, if_true, List.mem_cons, List.mem_append, List.mem_singleton]
      tauto
    · subst h; simp [JUMP_OPS] at hj
    · obtain ⟨j, hm, hp⟩ := h2 i h hj
      refine ⟨j, ?_, hp⟩
      simp only [genForShape, if_true, List.mem_cons, List.mem_append, List.mem_singleton]
      tauto
    · subst h
      refine ⟨⟨"LABEL", some ("L" ++ Nat.repr (ri.lc + 1)), none, none⟩, ?_, rfl, rfl⟩
      simp only [genForShape, if_true, List.mem_cons, List.mem_append, List.mem_singleton]
      tauto
    · obtain ⟨j, hm, hp⟩ := h3 i h hj
      refine ⟨j, ?_, hp⟩
      simp only [genForShape, if_true, List.mem_cons, List.mem_append, List.mem_singleton]
      tauto
    · obtain ⟨j, hm, hp⟩ := h4 i h hj
      refine ⟨j, ?_, hp⟩
      simp only [genForShape, if_true, List.mem_cons, List.mem_append, List.mem_singleton]
      tauto
    · subst h
      refine ⟨⟨"LABEL", some ("L" ++ Nat.repr ri.lc), none, none⟩, ?_, rfl, rfl⟩
      simp only [genForShape, if_true, List.mem_cons, List.mem_append, List.mem_singleton]
      tauto
    · subst h; simp [JUMP_OPS] at hj

/-- The LogicalOr / LogicalAnd emission is self-covering: its short-circuit jump targets the end LABEL it emits. -/
theorem coversIn_genShortCircuit (temp endLabel jumpOp : String) (rl rr : GenOut)
    (h1 : coversIn rl.ins rl.ins) (h2 : coversIn rr.ins rr.ins) :
    coversIn (genShortCircuit temp endLabel jumpOp rl rr).ins
      (genShortCircuit temp endLabel jumpOp rl rr).ins := by
  intro i hi hj
  simp only [genShortCircuit, List.mem_cons, List.mem_append, List.mem_singleton,
    List.not_mem_nil, or_false] at hi
  rcases hi with ((h | h | h) | h) | h | h
  · obtain ⟨j, hm, hp⟩ := h1 i h hj
    refine ⟨j, ?_, hp⟩
    simp only [genShortCircuit, List.mem_cons, List.mem_append, List.mem_singleton]
    tauto
  · subst h; simp [JUMP_OPS] at hj
  · subst h
    refine ⟨⟨"LABEL", some endLabel, none, none⟩, ?_, rfl, rfl⟩
    simp only [genShortCircuit, List.mem_cons, List.mem_append, List.mem_singleton]
    tauto
  · obtain ⟨j, hm, hp⟩ := h2 i h hj
    refine ⟨j, ?_, hp⟩
    simp only [genShortCircuit, List.mem_cons, List.mem_append, List.mem_singleton]
    tauto
  · subst h; simp [JUMP_OPS] at hj
  · subst h; simp [JUMP_OPS] at hj

/-- The binary-operator emission adds no jump. -/
theorem coversIn_genBinShape (irop : String) (rl rr : GenOut) (hop : irop ∉ JUMP_OPS)
    (h1 : coversIn rl.ins rl.ins) (h2 : coversIn rr.ins rr.ins) :
    coversIn (genBinShape irop rl rr).ins (genBinShape irop rl rr).ins :=
  selfCovers_append (selfCovers_append h1 h2) (coversIn_single_nonjump _ hop)

/-- The unary-operator emission adds no jump. -/
theorem coversIn_genUnaryShape (irop : String) (r : GenOut) (hop : irop ∉ JUMP_OPS)
    (h : coversIn r.ins r.ins) :
    coversIn (genUnaryShape irop r).ins (genUnaryShape irop r).ins :=
  selfCovers_append h (coversIn_single_nonjump _ hop)

/-- The FunctionCall emission (PARAMs and CALL) adds no jump. -/
theorem coversIn_genCallShape (fn : String) (ra : GenArgsOut)
    (h : coversIn ra.ins ra.ins) :
    coversIn (genCallShape fn ra).ins (genCallShape fn ra).ins := by
  refine selfCovers_append (selfCovers_append h ?_) (coversIn_single_nonjump _ (by simp [JUMP_OPS]))
  intro i hi hj
  simp only [List.mem_map] at hi
  obtain ⟨a, _, rfl⟩ := hi
  simp [JUMP_OPS] at hj

/-- Main coverage induction: at every fuel, the instruction list produced by
each of the three visitors covers its own jumps. -/
theorem genCoversAll : ∀ f : Nat,
    (∀ n t l, coversIn (genVisit f n t l).ins (genVisit f n t l).ins) ∧
    (∀ ch t l, coversIn (genList f ch t l).ins (genList f ch t l).ins) ∧
    (∀ ch t l, coversIn (genArgs f ch t l).ins (genArgs f ch t l).ins) := by
  intro f
  induction f with
  | zero =>
    refine ⟨fun n t l => ?_, fun ch t l => ?_, fun ch t l => ?_⟩
    · rcases n with ⟨ty, v, ln, col, ch⟩
      exact coversIn_nil _
    · cases ch <;> exact coversIn_nil _
    · cases ch <;> exact coversIn_nil _
  | succ f ih =>
    obtain ⟨ihV, ihL, ihA⟩ := ih
    refine ⟨fun n t l => ?_, fun ch t l => ?_, fun ch t l => ?_⟩
    · rcases n with ⟨ty, v, ln, col, ch⟩
      cases hk : gKind ty with
      | program => rw [genVisit]; rw [hk]; exact ihL ch t l
      | functionDecl =>
        rw [genVisit]; rw [hk]
        exact coversIn_genFunctionShape _ _
          (coversIn_onChild _ _ _ (coversIn_nil _) (fun m => ihV m t l))
      | varDecl =>
        rw [genVisit]; rw [hk]
        refine coversIn_onChild _ _ _ (coversIn_nil _) (fun m => ?_)
        dsimp only
        split
        · exact selfCovers_append (ihV m t l) (coversIn_single_nonjump _ (by simp [JUMP_OPS]))
        · exact ihV m t l
      | block => rw [genVisit]; rw [hk]; exact ihL ch t l
      | ifStmt =>
        rw [genVisit]; rw [hk]
        exact coversIn_genIfShape _ _ _
          (coversIn_onChild _ _ _ (coversIn_nil _) (fun m => ihV m t l))
          (coversIn_onChild _ _ _ (coversIn_nil _) (fun m => ihV m _ _))
          (coversIn_onChild _ _ _ (coversIn_nil _) (fun m => ihV m _ _))
      | whileStmt =>
        rw [genVisit]; rw [hk]
        exact coversIn_genWhileShape _ _ _
          (coversIn_onChild _ _ _ (coversIn_nil _) (fun m => ihV m _ _))
          (coversIn_onChild _ _ _ (coversIn_nil _) (fun m => ihV m _ _))
      | forStmt =>
        rw [genVisit]; rw [hk]
        refine coversIn_genForShape _ _ _ _ _ ?_ ?_ ?_ ?_
        · refine coversIn_onChild _ _ _ (coversIn_nil _) (fun m => ?_)
          dsimp only
          split
          · exact coversIn_nil _
          · exact ihV m t l
        · refine coversIn_onChild _ _ _ (coversIn_nil _) (fun m => ?_)
          dsimp only
          split
          · exact coversIn_nil _
          · exact ihV m _ _
        · exact coversIn_onChild _ _ _ (coversIn_nil _) (fun m => ihV m _ _)
        · refine coversIn_onChild _ _ _ (coversIn_nil _) (fun m => ?_)
          dsimp only
          split
          · exact coversIn_nil _
          · exact ihV m _ _
      | returnStmt =>
        rw [genVisit]; rw [hk]
        refine coversIn_onChild _ _ _ (coversIn_single_nonjump _ (by decide)) (fun m => ?_)
        dsimp only
        exact selfCovers_append (ihV m t l) (coversIn_single_nonjump _ (by simp [JUMP_OPS]))
      | printStmt =>
        rw [genVisit]; rw [hk]
        refine coversIn_onChild _ _ _ (coversIn_single_nonjump _ (by decide)) (fun m => ?_)
        dsimp only
        exact selfCovers_append (ihV m t l) (coversIn_single_nonjump _ (by simp [JUMP_OPS]))
      | assign =>
        rw [genVisit]; rw [hk]
        exact selfCovers_append
          (coversIn_onChild _ _ _ (coversIn_nil _) (fun m => ihV m t l))
          (coversIn_single_nonjump _ (by simp [JUMP_OPS]))
      | logicalOr =>
        rw [genVisit]; rw [hk]
        exact coversIn_genShortCircuit _ _ _ _ _
          (coversIn_onChild _ _ _ (coversIn_nil _) (fun m => ihV m _ _))
          (coversIn_onChild _ _ _ (coversIn_nil _) (fun m => ihV m _ _))
      | logicalAnd =>
        rw [genVisit]; rw [hk]
        exact coversIn_genShortCircuit _ _ _ _ _
          (coversIn_onChild _ _ _ (coversIn_nil _) (fun m => ihV m _ _))
          (coversIn_onChild _ _ _ (coversIn_nil _) (fun m => ihV m _ _))
      | binOp =>
        rw [genVisit]; rw [hk]
        exact coversIn_genBinShape _ _ _ (binOpIR_getD_not_jump ty)
          (coversIn_onChild _ _ _ (coversIn_nil _) (fun m => ihV m t l))
          (coversIn_onChild _ _ _ (coversIn_nil _) (fun m => ihV m _ _))
      | unaryOp =>
        rw [genVisit]; rw [hk]
        exact coversIn_genUnaryShape _ _ (unary_not_jump ty)
          (coversIn_onChild _ _ _ (coversIn_nil _) (fun m => ihV m t l))
      | call =>
        rw [genVisit]; rw [hk]
        exact coversIn_genCallShape _ _ (ihA ch.rest t l)
      | numberLit => rw [genVisit]; rw [hk]; exact coversIn_nil _
      | stringLit => rw [genVisit]; rw [hk]; exact coversIn_nil _
      | boolLit => rw [genVisit]; rw [hk]; exact coversIn_nil _
      | ident => rw [genVisit]; rw [hk]; exact coversIn_nil _
      | grouping =>
        rw [genVisit]; rw [hk]
        exact coversIn_onChild _ _ _ (coversIn_nil _) (fun m => ihV m t l)
      | other => rw [genVisit]; rw [hk]; exact ihL ch t l
    · cases ch with
      | nil => exact coversIn_nil _
      | cons n rest =>
        rw [genList]
        exact selfCovers_append (ihV n t l) (ihL rest _ _)
    · cases ch with
      | nil => exact coversIn_nil _
      | cons n rest =>
        rw [genArgs]
        exact selfCovers_append (ihV n t l) (ihA rest _ _)

/-- C8 counterexample to "exactly one": astL0 is well-formed per the shape
contracts (a function named L0 whose body holds an if statement), its IR contains
a JUMPFALSE targeting L0, and two LABEL instructions carry result L0 — the
function label and the generated else label collide. -/
theorem jump_target_matched_by_two_labels :
    wfB astL0 = true ∧
    ((⟨"JUMPFALSE", some "L0", some "x", none⟩ : IRInstruction) ∈ generateIR astL0) ∧
    labelCount (generateIR astL0) (some "L0") = 2 := by
  refine ⟨by decide, by decide, by decide⟩

/-- C8 amended: in the IR produced by generateIR (for every AST, well-formed or
not), every JUMP, JUMPTRUE and JUMPFALSE instruction targets the result of at
least one LABEL instruction of the same IR; "exactly one" fails (see the
counterexample). -/
theorem generateIR_jump_targets_have_labels (ast : ASTNode) :
    ∀ i ∈ generateIR ast, i.op ∈ JUMP_OPS →
      ∃ j ∈ generateIR ast, j.op = "LABEL" ∧ j.result = i.result :=
  (genCoversAll (astSizeN ast)).1 ast 0 0

/-- Witness for C8 at the concrete astL0 and its JUMPFALSE instruction. -/
theorem generateIR_jump_targets_have_labels_witness :
    ((⟨"JUMPFALSE", some "L0", some "x", none⟩ : IRInstruction) ∈ generateIR astL0) ∧
    ("JUMPFALSE" : String) ∈ JUMP_OPS ∧
    ∃ j ∈ generateIR astL0, j.op = "LABEL" ∧ j.result = some "L0" :=
  ⟨by decide, by decide,
    generateIR_jump_targets_have_labels astL0
      ⟨"JUMPFALSE", some "L0", some "x", none⟩ (by decide) (by decide)⟩

/-- Reflexivity of the peer relation. -/
theorem scopePeer_refl (st : AState) : scopePeer st st := ⟨rfl, rfl, fun _ => rfl⟩

/-- Transitivity of the peer relation. -/
theorem scopePeer_trans {a b c : AState} (h1 : scopePeer a b) (h2 : scopePeer b c) :
    scopePeer a c :=
  ⟨h2.1.trans h1.1, h2.2.1.trans h1.2.1, fun k => (h2.2.2 k).trans (h1.2.2 k)⟩

/-- Head unfolding of the association-list lookup. -/
theorem lookupA_cons {α : Type} (p : String × α) (t : List (String × α)) (k : String) :
    lookupA (p :: t) k = if p.1 = k then some p.2 else lookupA t k := by
  by_cases h : p.1 = k <;> simp [lookupA, List.find?_cons, h]

/-- Lookup at the written key after the in-place replacement map. -/
theorem lookupA_map_self {α : Type} (k : String) (v : α) : ∀ l : List (String × α),
    lookupA (l.map (fun p => if p.1 = k then (k, v) else p)) k =
      if (l.find? (fun p => p.1 = k)).isSome then some v else none := by
  intro l
  induction l with
  | nil => rfl
  | cons p t ih =>
    by_cases hp : p.1 = k
    · simp [lookupA_cons, List.find?_cons, hp]
    · simp only [List.map_cons, if_neg hp, lookupA_cons, List.find?_cons]
      simp only [hp, decide_False, cond_false, if_neg hp]
      exact ih

/-- Lookup at another key is untouched by the replacement map. -/
theorem lookupA_map_ne {α : Type} (k k2 : String) (v : α) (hne : k2 ≠ k) :
    ∀ l : List (String × α),
    lookupA (l.map (fun p => if p.1 = k then (k, v) else p)) k2 = lookupA l k2 := by
  intro l
  induction l with
  | nil => rfl
  | cons p t ih =>
    by_cases hp : p.1 = k
    · have hk2 : ¬ (p.1 = k2) := fun h => hne (h.symm.trans hp)
      simp only [List.map_cons, if_pos hp, lookupA_cons]
      rw [if_neg (fun h => hne h.symm), if_neg hk2]
      exact ih
    · simp only [List.map_cons, if_neg hp, lookupA_cons]
      rw [ih]

/-- Lookup at a key absent from the prefix finds the appended pair. -/
theorem lookupA_append_of_none {α : Type} (k : String) (v : α) : ∀ l : List (String × α),
    (∀ x ∈ l, ¬(x.1 = k)) → lookupA (l ++ [(k, v)]) k = some v := by
  intro l
  induction l with
  | nil => simp [lookupA_cons]
  | cons p t ih =>
    intro h
    rw [List.cons_append, lookupA_cons, if_neg (h p (by simp))]
    exact ih (fun x hx => h x (by simp [hx]))

/-- Lookup at another key ignores the appended pair. -/
theorem lookupA_append_ne {α : Type} (k k2 : String) (v : α) (hne : k2 ≠ k) :
    ∀ l : List (String × α), lookupA (l ++ [(k, v)]) k2 = lookupA l k2 := by
  intro l
  induction l with
  | nil =>
    simp only [List.nil_append, lookupA_cons]
    rw [if_neg (fun h => hne (Eq.symm h))]
  | cons p t ih =>
    rw [List.cons_append, lookupA_cons, lookupA_cons, ih]

/-- A property write is observed by a lookup at the same key. -/
theorem lookupA_updateA_self {α : Type} (l : List (String × α)) (k : String) (v : α) :
    lookupA (updateA l k v) k = some v := by
  unfold updateA
  split
  · next hfind => rw [lookupA_map_self, if_pos hfind]
  · next hfind =>
    apply lookupA_append_of_none
    intro x hx hxk
    apply hfind
    rw [List.find?_isSome]
    exact ⟨x, hx, by simp [hxk]⟩

/-- A property write leaves every other key unchanged. -/
theorem lookupA_updateA_ne {α : Type} (l : List (String × α)) (k k2 : String) (v : α)
    (hne : k2 ≠ k) : lookupA (updateA l k v) k2 = lookupA l k2 := by
  unfold updateA
  split
  · exact lookupA_map_ne k k2 v hne l
  · exact lookupA_append_ne k k2 v hne l

/-- declareSymbol only touches one scope's symbols (or the errors). -/
theorem declareSymbol_peer (name ty kind : String) (node : ASTNode)
    (params : Option (List (String × String))) (returnType : Option String)
    (st : AState) :
    scopePeer st (declareSymbol name ty kind node params returnType st) := by
  unfold declareSymbol
  split
  · exact scopePeer_refl st
  · next sc hsc =>
    split
    · exact ⟨rfl, rfl, fun _ => rfl⟩
    · refine ⟨rfl, rfl, fun k => ?_⟩
      unfold parentOf
      by_cases hk : k = st.table.currentScope
      · subst hk
        rw [lookupA_updateA_self, hsc]
        rfl
      · rw [lookupA_updateA_ne _ _ _ _ hk]

/-- markInitCurrent only touches one scope's symbols. -/
theorem markInitCurrent_peer (varName : String) (st : AState) :
    scopePeer st (markInitCurrent varName st) := by
  unfold markInitCurrent
  split
  · exact scopePeer_refl st
  · next sc hsc =>
    split
    · exact scopePeer_refl st
    · refine ⟨rfl, rfl, fun k => ?_⟩
      unfold parentOf
      by_cases hk : k = st.table.currentScope
      · subst hk
        rw [lookupA_updateA_self, hsc]
        rfl
      · rw [lookupA_updateA_ne _ _ _ _ hk]

/-- The initialized-flag write through a resolved reference only touches one scope's symbols. -/
theorem markInitAt_peer (scName varName : String) (st : AState) :
    scopePeer st (markInitAt scName varName st) := by
  unfold markInitAt
  split
  · exact scopePeer_refl st
  · next sc hsc =>
    split
    · exact scopePeer_refl st
    · refine ⟨rfl, rfl, fun k => ?_⟩
      unfold parentOf
      by_cases hk : k = scName
      · subst hk
        rw [lookupA_updateA_self, hsc]
        rfl
      · rw [lookupA_updateA_ne _ _ _ _ hk]

/-- Parameter declaration is a chain of declareSymbol calls. -/
theorem declParams_peer : ∀ (ps : ASTList) (st : AState), scopePeer st (declParams ps st)
  | .nil, st => scopePeer_refl st
  | .cons _ rest, _ =>
    scopePeer_trans (declareSymbol_peer _ _ _ _ _ _ _) (declParams_peer rest _)

/-- The main-function check only appends an error. -/
theorem mainCheck_peer (st : AState) : scopePeer st (mainCheck st) := by
  unfold mainCheck
  repeat' first | split | dsimp only
  all_goals exact ⟨rfl, rfl, fun _ => rfl⟩

/-- The condition type check only appends errors. -/
theorem condCheck_peer (ch : ASTList) (st : AState) : scopePeer st (condCheck ch st) := by
  unfold condCheck
  repeat' first | split | dsimp only
  all_goals exact ⟨rfl, rfl, fun _ => rfl⟩

/-- The return type check only appends errors. -/
theorem returnCheck_peer (ln col : Option Nat) (ch : ASTList) (st : AState) :
    scopePeer st (returnCheck ln col ch st) := by
  unfold returnCheck
  repeat' first | split | dsimp only
  all_goals exact ⟨rfl, rfl, fun _ => rfl⟩

/-- The assignment check only appends errors and possibly marks a symbol initialized. -/
theorem assignCheck_peer (ln col : Option Nat) (ch : ASTList) (st : AState) :
    scopePeer st (assignCheck ln col ch st) := by
  unfold assignCheck
  repeat' first | split | dsimp only
  all_goals first
    | exact ⟨rfl, rfl, fun _ => rfl⟩
    | exact scopePeer_trans ⟨rfl, rfl, fun _ => rfl⟩ (markInitAt_peer _ _ _)

/-- The VariableDeclaration case declares, checks and marks but never moves the current scope. -/
theorem visitVarDecl_peer (ch : ASTList) (st : AState) :
    scopePeer st (visitVarDecl ch st) := by
  unfold visitVarDecl onChild
  repeat' first | split | dsimp only
  all_goals first
    | exact declareSymbol_peer _ _ _ _ _ _ _
    | exact scopePeer_trans (declareSymbol_peer _ _ _ _ _ _ _)
        (scopePeer_trans ⟨rfl, rfl, fun _ => rfl⟩ (markInitCurrent_peer _ _))

/-- A peer step is a function-free visit outcome. -/
theorem noFuncOut_of_peer {s : Nat → String} {st st2 : AState} (h : scopePeer st st2) :
    noFuncOut s st st2 :=
  ⟨h.1, le_of_eq h.2.1.symm, fun k _ => h.2.2 k⟩

/-- Composition of function-free visit outcomes. -/
theorem noFuncOut_trans {s : Nat → String} {a b c : AState}
    (h1 : noFuncOut s a b) (h2 : noFuncOut s b c) : noFuncOut s a c := by
  refine ⟨h2.1.trans h1.1, le_trans h1.2.1 h2.2.1, fun k hk => ?_⟩
  rw [h2.2.2 k (fun j hj => hk j (le_trans h1.2.1 hj))]
  exact h1.2.2 k hk

/-- A function scope name is never a block scope name. -/
theorem function_ne_block (a b : String) : "function_" ++ a ≠ "block_" ++ b := by
  intro h
  have hd : ("function_" ++ a).data.head? = ("block_" ++ b).data.head? := by rw [h]
  rw [String.data_append, String.data_append] at hd
  have h1 : ("function_".data ++ a.data).head? = some 'f' := rfl
  have h2 : ("block_".data ++ b.data).head? = some 'b' := rfl
  rw [h1, h2] at hd
  simp at hd

/-- Block scope names determine their random suffix. -/
theorem block_inj {a b : String} (h : "block_" ++ a = "block_" ++ b) : a = b := by
  have hd := congrArg String.data h
  rw [String.data_append, String.data_append] at hd
  exact String.ext (List.append_cancel_left hd)

/-- A block scope name is nonempty. -/
theorem block_ne_empty (a : String) : "block_" ++ a ≠ "" := by
  intro h
  have hd : ("block_" ++ a).data.head? = ("" : String).data.head? := by rw [h]
  rw [String.data_append] at hd
  have h1 : ("block_".data ++ a.data).head? = some 'b' := rfl
  rw [h1] at hd
  simp at hd

/-- A function scope name is nonempty. -/
theorem function_ne_empty (a : String) : "function_" ++ a ≠ "" := by
  intro h
  have hd : ("function_" ++ a).data.head? = ("" : String).data.head? := by rw [h]
  rw [String.data_append] at hd
  have h1 : ("function_".data ++ a.data).head? = some 'f' := rfl
  rw [h1] at hd
  simp at hd

/-- Indexing into a function-free child list yields a function-free node. -/
theorem noFuncListB_get? : ∀ (ch : ASTList) (i : Nat) (b : ASTNode),
    noFuncListB ch = true → ch.get? i = some b → noFuncB b = true
  | .cons n _, 0, _, h, hg => by
    obtain rfl := Option.some.inj hg
    rw [noFuncListB, Bool.and_eq_true] at h
    exact h.1
  | .cons n rest, i + 1, b, h, hg => by
    rw [noFuncListB, Bool.and_eq_true] at h
    exact noFuncListB_get? rest i b h.2 hg

/-- Only the FunctionDeclaration label is classified to the functionDecl case. -/
theorem aKind_functionDecl {ty : String} (h : aKind ty = AKind.functionDecl) :
    ty = "FunctionDeclaration" := by
  unfold aKind at h
  repeat' split at h
  all_goals first | assumption | exact absurd h (by decide)

/-- Main balance induction for function-free subtrees: the visit restores the current scope, only advances the random index, and only rewires parents of freshly named block scopes. -/
theorem visitNoFunc (s : Nat → String) (hs : Function.Injective s) : ∀ f : Nat,
    (∀ n st, noFuncB n = true → st.table.currentScope ≠ "" →
      noFuncOut s st (visitNode f s n st)) ∧
    (∀ ch st, noFuncListB ch = true → st.table.currentScope ≠ "" →
      noFuncOut s st (visitList f s ch st)) := by
  intro f
  induction f with
  | zero =>
    constructor
    · intro n st _ _
      exact noFuncOut_of_peer (scopePeer_refl st)
    · intro ch st _ _
      exact noFuncOut_of_peer (scopePeer_refl st)
  | succ f ih =>
    obtain ⟨ihV, ihL⟩ := ih
    constructor
    · intro n st hn hcs
      rcases n with ⟨ty, v, ln, col, ch⟩
      rw [noFuncB, Bool.and_eq_true] at hn
      obtain ⟨hty0, hnf⟩ := hn
      have hty : ty ≠ "FunctionDeclaration" := by
        intro h
        rw [h] at hty0
        simp at hty0
      cases hk : aKind ty with
      | program =>
        rw [visitNode]; rw [hk]
        exact noFuncOut_trans (ihL ch st hnf hcs) (noFuncOut_of_peer (mainCheck_peer _))
      | functionDecl => exact absurd (aKind_functionDecl hk) hty
      | varDecl =>
        rw [visitNode]; rw [hk]
        exact noFuncOut_of_peer (visitVarDecl_peer _ _)
      | block =>
        rw [visitNode]; rw [hk]
        have hbne : ("block_" ++ s st.ridx) ≠ "" := block_ne_empty _
        obtain ⟨hLcs, hLr, hLp⟩ :=
          ihL ch (enterScope ("block_" ++ s st.ridx) { st with ridx := st.ridx + 1 }) hnf hbne
        have havoid : ∀ j, st.ridx + 1 ≤ j → ("block_" ++ s st.ridx) ≠ "block_" ++ s j := by
          intro j hj heq
          have := hs (block_inj heq)
          omega
        have hp2 : parentOf (visitList f s ch
            (enterScope ("block_" ++ s st.ridx) { st with ridx := st.ridx + 1 })).table
            ("block_" ++ s st.ridx) = some (some st.table.currentScope) := by
          rw [hLp _ havoid]
          unfold parentOf
          show (lookupA (updateA st.table.scopes ("block_" ++ s st.ridx)
            ⟨some st.table.currentScope, []⟩) ("block_" ++ s st.ridx)).map Scope.parent = _
          rw [lookupA_updateA_self]
          rfl
        refine ⟨?_, ?_, ?_⟩
        · show jsOr ((lookupA _ _).bind Scope.parent) "global" = st.table.currentScope
          rw [hLcs]
          show jsOr ((lookupA (visitList f s ch
            (enterScope ("block_" ++ s st.ridx) { st with ridx := st.ridx + 1 })).table.scopes
            ("block_" ++ s st.ridx)).bind Scope.parent) "global" = st.table.currentScope
          unfold parentOf at hp2
          obtain ⟨sc, hsc, hscp⟩ := Option.map_eq_some'.mp hp2
          rw [hsc]
          show jsOr sc.parent "global" = st.table.currentScope
          rw [hscp]
          show (if st.table.currentScope = "" then "global" else st.table.currentScope) =
            st.table.currentScope
          rw [if_neg hcs]
        · show st.ridx ≤ (visitList f s ch
            (enterScope ("block_" ++ s st.ridx) { st with ridx := st.ridx + 1 })).ridx
          exact le_trans (Nat.le_succ _) hLr
        · intro k hkav
          show parentOf (visitList f s ch
            (enterScope ("block_" ++ s st.ridx) { st with ridx := st.ridx + 1 })).table k =
            parentOf st.table k
          rw [hLp k (fun j hj => hkav j (le_trans (Nat.le_succ _) hj))]
          have hkbn : k ≠ "block_" ++ s st.ridx := hkav st.ridx (le_refl _)
          unfold parentOf
          show (lookupA (updateA st.table.scopes ("block_" ++ s st.ridx)
            ⟨some st.table.currentScope, []⟩) k).map Scope.parent = _
          rw [lookupA_updateA_ne _ _ _ _ hkbn]
      | conditional =>
        rw [visitNode]; rw [hk]
        refine noFuncOut_trans (noFuncOut_of_peer (condCheck_peer ch st)) ?_
        exact ihL ch _ hnf (by rw [(condCheck_peer ch st).1]; exact hcs)
      | returnStmt =>
        rw [visitNode]; rw [hk]
        refine noFuncOut_trans (noFuncOut_of_peer (returnCheck_peer ln col ch st)) ?_
        exact ihL ch _ hnf (by rw [(returnCheck_peer ln col ch st).1]; exact hcs)
      | assign =>
        rw [visitNode]; rw [hk]
        refine noFuncOut_trans (noFuncOut_of_peer (assignCheck_peer ln col ch st)) ?_
        exact ihL ch _ hnf (by rw [(assignCheck_peer ln col ch st).1]; exact hcs)
      | printStmt =>
        rw [visitNode]; rw [hk]
        exact ihL ch st hnf hcs
      | other =>
        rw [visitNode]; rw [hk]
        exact ihL ch st hnf hcs
    · intro ch st hnl hcs
      cases ch with
      | nil => exact noFuncOut_of_peer (scopePeer_refl st)
      | cons n rest =>
        rw [visitList]
        rw [noFuncListB, Bool.and_eq_true] at hnl
        have h1 := ihV n st hnl.1 hcs
        refine noFuncOut_trans h1 (ihL rest _ hnl.2 ?_)
        rw [h1.1]
        exact hcs

/-- Entering a function declaration: current scope becomes the function scope, whose parent records the previous scope; nothing else moves. -/
theorem funcDeclEnter_facts (ch : ASTList) (st : AState) :
    (funcDeclEnter ch st).table.currentScope = "function_" ++ jsOr (childValue ch 1) "" ∧
    (funcDeclEnter ch st).ridx = st.ridx ∧
    parentOf (funcDeclEnter ch st).table ("function_" ++ jsOr (childValue ch 1) "") =
      some (some st.table.currentScope) ∧
    ∀ k, k ≠ "function_" ++ jsOr (childValue ch 1) "" →
      parentOf (funcDeclEnter ch st).table k = parentOf st.table k := by
  unfold funcDeclEnter
  dsimp only
  refine ⟨(declParams_peer _ _).1,
    ((declParams_peer _ _).2.1).trans ((declareSymbol_peer _ _ _ _ _ _ _).2.1), ?_, ?_⟩
  · rw [(declParams_peer _ _).2.2]
    unfold parentOf
    show (lookupA (updateA _ _ _) _).map Scope.parent = _
    rw [lookupA_updateA_self]
    show some (some (declareSymbol _ _ _ _ _ _ st).table.currentScope) = _
    rw [(declareSymbol_peer _ _ _ _ _ _ _).1]
  · intro k hk
    rw [(declParams_peer _ _).2.2]
    unfold parentOf
    show (lookupA (updateA _ _ _) k).map Scope.parent = _
    rw [lookupA_updateA_ne _ _ _ _ hk]
    exact (declareSymbol_peer _ _ _ _ _ _ _).2.2 k

/-- A FunctionDeclaration visited from the global scope (with a function-free body, as the grammar guarantees) exits back to the global scope. -/
theorem visitFuncTop (s : Nat → String) (hs : Function.Injective s) (f : Nat)
    (v : Option String) (ln col : Option Nat) (ch : ASTList) (st : AState)
    (hch : noFuncListB ch = true) (hcs : st.table.currentScope = "global") :
    (visitNode f s (.mk "FunctionDeclaration" v ln col ch) st).table.currentScope =
      "global" := by
  obtain ⟨h3cs, h3r, h3p, h3k⟩ := funcDeclEnter_facts ch st
  cases f with
  | zero => exact hcs
  | succ f =>
    rw [visitNode]
    have hk : aKind "FunctionDeclaration" = AKind.functionDecl := by decide
    rw [hk]
    show (exitScope (onChild (ch.get? 3) (funcDeclEnter ch st)
      (fun b => visitNode f s b (funcDeclEnter ch st)))).table.currentScope = "global"
    cases hg : ch.get? 3 with
    | none =>
      show jsOr ((lookupA (funcDeclEnter ch st).table.scopes
        (funcDeclEnter ch st).table.currentScope).bind Scope.parent) "global" = "global"
      rw [h3cs]
      rw [hcs] at h3p
      unfold parentOf at h3p
      obtain ⟨sc, hsc, hscp⟩ := Option.map_eq_some'.mp h3p
      rw [hsc]
      show jsOr sc.parent "global" = "global"
      rw [hscp]
      decide
    | some b =>
      obtain ⟨hbcs, hbr, hbp⟩ := (visitNoFunc s hs f).1 b (funcDeclEnter ch st)
        (noFuncListB_get? ch 3 b hch hg) (by rw [h3cs]; exact function_ne_empty _)
      show jsOr ((lookupA (visitNode f s b (funcDeclEnter ch st)).table.scopes
        (visitNode f s b (funcDeclEnter ch st)).table.currentScope).bind Scope.parent)
        "global" = "global"
      rw [hbcs, h3cs]
      have hp4 : parentOf (visitNode f s b (funcDeclEnter ch st)).table
          ("function_" ++ jsOr (childValue ch 1) "") = some (some "global") := by
        rw [hbp _ (fun j hj => function_ne_block _ _)]
        rw [h3p, hcs]
      unfold parentOf at hp4
      obtain ⟨sc, hsc, hscp⟩ := Option.map_eq_some'.mp hp4
      rw [hsc]
      show jsOr sc.parent "global" = "global"
      rw [hscp]
      decide

/-- Visiting any list of legal top-level declarations from the global scope ends in the global scope. -/
theorem visitListTop (s : Nat → String) (hs : Function.Injective s) : ∀ (f : Nat)
    (ch : ASTList) (st : AState), astAll topChildOk ch = true →
    st.table.currentScope = "global" →
    (visitList f s ch st).table.currentScope = "global" := by
  intro f
  induction f with
  | zero => intro ch st _ h; exact h
  | succ f ih =>
    intro ch st hall hcs
    cases ch with
    | nil => exact hcs
    | cons n rest =>
      rw [visitList]
      rw [astAll, Bool.and_eq_true] at hall
      obtain ⟨h1, h2⟩ := hall
      rcases n with ⟨ty, v, ln, col, chn⟩
      by_cases hty : ty = "FunctionDeclaration"
      · subst hty
        have hnf : noFuncListB chn = true := by
          unfold topChildOk at h1
          rw [if_pos (show (ASTNode.mk "FunctionDeclaration" v ln col chn).type =
            "FunctionDeclaration" from rfl)] at h1
          exact h1
        exact ih rest _ h2 (visitFuncTop s hs f v ln col chn st hnf hcs)
      · have hnfb : noFuncB (.mk ty v ln col chn) = true := by
          unfold topChildOk at h1
          rw [if_neg (show ¬ ((ASTNode.mk ty v ln col chn).type =
            "FunctionDeclaration") from hty)] at h1
          exact h1
        have hv := (visitNoFunc s hs f).1 _ st hnfb (by rw [hcs]; decide)
        exact ih rest _ h2 (hv.1.trans hcs)

/-- C9 amended: for every parser-shaped AST (a Program whose function
declarations all sit directly under the root, none nested) and every injective
random stream, analyze ends with symbolTable.currentScope = "global". -/
theorem analyze_restores_global_scope (s : Nat → String) (hs : Function.Injective s)
    (ast : ASTNode) (htop : topLevelB ast = true) :
    (analyze s ast).1.currentScope = "global" := by
  rcases ast with ⟨ty, v, ln, col, ch⟩
  rw [topLevelB, Bool.and_eq_true] at htop
  obtain ⟨hty, hall⟩ := htop
  have hty2 : ty = "Program" := of_decide_eq_true hty
  subst hty2
  show (visitNode (astSizeN (ASTNode.mk "Program" v ln col ch)) s
    (.mk "Program" v ln col ch) ⟨initialTable, [], 0⟩).table.currentScope = "global"
  have hsz : astSizeN (ASTNode.mk "Program" v ln col ch) = astSizeL ch + 1 := rfl
  rw [hsz]
  rw [visitNode]
  have hk : aKind "Program" = AKind.program := by decide
  rw [hk]
  show (mainCheck (visitList (astSizeL ch) s ch ⟨initialTable, [], 0⟩)).table.currentScope =
    "global"
  rw [(mainCheck_peer _).1]
  exact visitListTop s hs (astSizeL ch) ch ⟨initialTable, [], 0⟩ hall rfl

/-- The witness stream is injective. -/
theorem streamW_injective : Function.Injective streamW := by
  intro n m h
  have hd := congrArg String.data h
  have hl := congrArg List.length hd
  simpa [streamW] using hl

/-- C9 counterexample: the claim quantifies over every AST, but on a
FunctionDeclaration nested as the body of a same-named FunctionDeclaration the
inner enterScope overwrites the outer scope entry with a self-parent, and both
exits read back "function_f": analyze ends with currentScope = "function_f",
not "global". -/
theorem analyze_leaves_nonglobal_scope :
    (analyze streamW astNested).1.currentScope = "function_f" ∧
    (analyze streamW astNested).1.currentScope ≠ "global" := by
  refine ⟨by decide, by decide⟩

/-- Witness for C9 at the concrete astMain and the injective witness stream. -/
theorem analyze_restores_global_scope_witness :
    topLevelB astMain = true ∧ (analyze streamW astMain).1.currentScope = "global" :=
  ⟨by decide, analyze_restores_global_scope streamW streamW_injective astMain (by decide)⟩

end CompilerProj
